import Mathlib

/-!
helm_viewer: image scanner, registry enricher and request orchestration

A shallow embedding of `services/helm_service.go`, `handlers/helm_handler.go`
and `models/helm_model.go`, followed by the properties proved about them.

Conventions of the embedding

* a value of Go type `any` produced by the YAML decoder is a `Node`;
* a Go `map[string]any` is an association list: the order of the list is
  the order in which `range` visits the entries, and `v[key]` is the value
  of the first entry with that key (`List.lookup`);
* a Go `error` is the text of its `Error()` method, `nil` is `none`;
* calls that leave the process (HTTP) are parameters of the functions that
  make them.
-/

namespace HelmViewer

/-! ## models/helm_model.go -/

/-- ContainerImage represents container image information. -/
structure ContainerImage where
  Name : String
  Container : String := ""
  Size : String := ""
  Layers : Int := 0
  deriving DecidableEq, Repr

/-- HELMRequest represents a request to load YAML. -/
structure HELMRequest where
  URL : String
  deriving DecidableEq, Repr

/-! ## The document tree -/

/-- A decoded YAML value, the dynamic content of a Go `any`.  `mapping` is
`map[string]any`, `sequence` is `[]interface{}`; `other` stands for every
dynamic type that the decoder can produce and that has no constructor of its
own (a timestamp, a mapping with non-string keys, an unsigned integer). -/
inductive Node where
  | mapping (entries : List (String × Node))
  | sequence (items : List Node)
  | str (s : String)
  | int (n : Int)
  | float (bits : Nat)
  | bool (b : Bool)
  | null
  | other (kind : Nat)
  deriving Repr

/-- The comma-ok type assertion `x.(string)` with the flag dropped: the
string when the key is present with a string value, the zero value `""`
otherwise. -/
def asString : Option Node → String
  | some (.str s) => s
  | _ => ""

/-! ## services/helm_service.go: FindContainerImages -/

/-- Lines 62-77 of `helm_service.go`: the records appended by the check for
the Helm chart image format on the mapping `v`. -/
def helmChartImage (v : List (String × Node)) : List ContainerImage :=
  match v.lookup "image" with
  | some (.mapping imageMap) =>
    let repository := asString (imageMap.lookup "repository")
    let tag := asString (imageMap.lookup "tag")
    if repository ≠ "" then
      let tag := if tag = "" then "latest" else tag
      [{ Name := repository ++ ":" ++ tag, Container := "" }]
    else []
  | _ => []

/-- Lines 79-90 of `helm_service.go`: the records appended by the check for
the direct image string format on the mapping `v`. -/
def directImage (v : List (String × Node)) : List ContainerImage :=
  match v.lookup "image" with
  | some (.str image) =>
    let containerName :=
      match v.lookup "name" with
      | some (.str name) => name
      | _ => ""
    [{ Name := image, Container := containerName }]
  | _ => []

mutual
/-- FindContainerImages searches for container images in YAML structure. -/
def FindContainerImages : Node → List ContainerImage
  | .mapping v => helmChartImage v ++ directImage v ++ rangeValues v
  | .sequence v => rangeItems v
  | _ => []
/-- The loop `for _, value := range v` over the entries of a mapping. -/
def rangeValues : List (String × Node) → List ContainerImage
  | [] => []
  | (_, value) :: rest => FindContainerImages value ++ rangeValues rest
/-- The loop `for _, item := range v` over the elements of a sequence. -/
def rangeItems : List Node → List ContainerImage
  | [] => []
  | item :: rest => FindContainerImages item ++ rangeItems rest
end

/-! ## Vocabulary of the specification for document trees -/

mutual
/-- Every node of the tree, the root first: the nodes reachable from the
root through any chain of mapping values and sequence elements. -/
def subnodes : Node → List Node
  | .mapping v => .mapping v :: subnodesOfValues v
  | .sequence v => .sequence v :: subnodesOfItems v
  | .str s => [.str s]
  | .int n => [.int n]
  | .float b => [.float b]
  | .bool b => [.bool b]
  | .null => [.null]
  | .other k => [.other k]
/-- The nodes below the values of a mapping. -/
def subnodesOfValues : List (String × Node) → List Node
  | [] => []
  | (_, value) :: rest => subnodes value ++ subnodesOfValues rest
/-- The nodes below the elements of a sequence. -/
def subnodesOfItems : List Node → List Node
  | [] => []
  | item :: rest => subnodes item ++ subnodesOfItems rest
end

/-- A scalar node: a string, a number, a boolean or null. -/
def Node.isScalar : Node → Bool
  | .str _ => true
  | .int _ => true
  | .float _ => true
  | .bool _ => true
  | .null => true
  | _ => false

/-! ## handlers/helm_handler.go -/

namespace handlers

/-- HELMResponse represents the server response (`models/helm_model.go`);
`Data` is the `omitempty` field that `LoadHELM` never sets. -/
structure HELMResponse where
  Success : Bool
  Data : Option Node := none
  Error : String := ""

/-- ImagesResponse represents the response containing container images
(`models/helm_model.go`). -/
structure ImagesResponse where
  Success : Bool
  Images : List ContainerImage

/-- The object handed to `c.JSON`: one of the two response models. -/
inductive Body where
  | helm (r : HELMResponse)
  | images (r : ImagesResponse)

/-- What `c.JSON(status, body)` writes. -/
structure Response where
  status : Nat
  body : Body

/-- HELMService defines the interface for HELM operations.  The methods that
reach the network take the state `σ` of the world outside the process and
return it with their Go result tuple; an `error` is `none` for `nil`. -/
structure HELMService (σ : Type) where
  LoadAndParseYAML : String → σ → (Node × Option String) × σ
  FindContainerImages : Node → List ContainerImage
  GetImageInfo : String → σ → (String × Int × Option String) × σ

/-- The loop `for i := range images` of `LoadHELM` (lines 56-67): the slice
with `Size` and `Layers` written in place, or the response sent by the early
return of the first failing lookup. -/
def enrichImages {σ : Type} (svc : HELMService σ) :
    List ContainerImage → σ → Except Response (List ContainerImage) × σ
  | [], w => (.ok [], w)
  | image :: rest, w =>
    match svc.GetImageInfo image.Name w with
    | ((_, _, some err), w1) =>
      let message := "Failed to get size for image " ++ image.Name ++ ": " ++ err
      (.error ⟨500, .helm { Success := false, Error := message }⟩, w1)
    | ((size, layers, none), w1) =>
      match enrichImages svc rest w1 with
      | (.ok done, w2) => (.ok ({ image with Size := size, Layers := layers } :: done), w2)
      | (.error response, w2) => (.error response, w2)

/-- LoadHELM handles the request to load a YAML document from URL.  `bound`
is the outcome of `c.ShouldBindJSON(&request)`: `none` when binding fails. -/
def LoadHELM {σ : Type} (svc : HELMService σ) (bound : Option HELMRequest) (w : σ) :
    Response × σ :=
  match bound with
  | none => (⟨400, .helm { Success := false, Error := "Invalid request format" }⟩, w)
  | some request =>
    match svc.LoadAndParseYAML request.URL w with
    | ((_, some err), w1) => (⟨500, .helm { Success := false, Error := err }⟩, w1)
    | ((yamlContent, none), w1) =>
      let images := svc.FindContainerImages yamlContent
      match enrichImages svc images w1 with
      | (.error response, w2) => (response, w2)
      | (.ok images, w2) => (⟨200, .images { Success := true, Images := images }⟩, w2)

/-- Specification side: the (size, layers) pairs obtained by calling
`GetImageInfo` for the names one after the other when every call succeeds,
and the state after the last call; `none` as soon as one call fails. -/
def lookupAll {σ : Type} (svc : HELMService σ) :
    List String → σ → Option (List (String × Int) × σ)
  | [], w => some ([], w)
  | name :: rest, w =>
    match svc.GetImageInfo name w with
    | ((_, _, some _), _) => none
    | ((size, layers, none), w1) =>
      match lookupAll svc rest w1 with
      | some (infos, w2) => some ((size, layers) :: infos, w2)
      | none => none

end handlers

namespace handlers

/-- A chart with three image references, used to run the handler. -/
def sampleChart : Node :=
  .mapping [("image", .mapping [("repository", .str "nginx"), ("tag", .str "latest")]),
            ("sidecar", .mapping [("image", .str "busybox:1.36")]),
            ("extra", .mapping [("image", .str "alpine:3.18")])]

/-- A service double in the manner of the mock of `helm_handler_test.go`: the
state is the log of the names looked up so far, every document is
`sampleChart`, the names in `known` are answered with 100.00 MB and five
layers and every other name with the error "not found". -/
def stubService (known : List String) : HELMService (List String) where
  LoadAndParseYAML := fun _ log => ((sampleChart, none), log)
  FindContainerImages := HelmViewer.FindContainerImages
  GetImageInfo := fun name log =>
    if name ∈ known then (("100.00 MB", 5, none), log ++ [name])
    else (("", 0, some "not found"), log ++ [name])

end handlers

/-! ## services/helm_service.go: the registry enricher -/

/-- HELMService provides methods for working with YAML documents. -/
structure HELMService where
  dockerHubBaseURL : String
  deriving DecidableEq, Repr

/-- NewHELMService creates a new instance of HELMService. -/
def NewHELMService : HELMService :=
  { dockerHubBaseURL := "https://hub.docker.com" }

/-- SetDockerHubBaseURL sets the base URL for Docker Hub API calls. -/
def SetDockerHubBaseURL (_s : HELMService) (url : String) : HELMService :=
  { dockerHubBaseURL := url }

/-- The pieces of a character sequence between the occurrences of `sep`;
there is always at least one piece. -/
def splitChars (sep : Char) : List Char → List (List Char)
  | [] => [[]]
  | c :: cs =>
    if c = sep then [] :: splitChars sep cs
    else
      match splitChars sep cs with
      | [] => [[c]]
      | piece :: pieces => (c :: piece) :: pieces

/-- Go's `strings.Split(s, sep)` for a separator of one character. -/
def stringsSplit (s : String) (sep : Char) : List String :=
  (splitChars sep s.toList).map String.mk

/-- Go's `strings.Contains(s, sub)` for a substring of one character. -/
def stringsContains (s : String) (sub : Char) : Bool :=
  s.toList.contains sub

/-- Lines 121-127 of `GetDockerHubResponse`: the repository and the tag taken
from the image name. -/
def repositoryAndTag (imageName : String) : String × String :=
  let parts := stringsSplit imageName ':'
  let repository := parts.headD ""
  let tag := "latest"
  let tag := if parts.length > 1 then parts.getD 1 "" else tag
  (repository, tag)

/-- Lines 129-137 of `GetDockerHubResponse`: the URL requested for a
repository and a tag. -/
def dockerHubURL (s : HELMService) (repository tag : String) : String :=
  if !stringsContains repository '/' then
    s.dockerHubBaseURL ++ "/v2/repositories/library/" ++ repository ++ "/tags/" ++ tag
  else
    s.dockerHubBaseURL ++ "/v2/repositories/" ++ repository ++ "/tags/" ++ tag

/-- What `GetDockerHubResponse` reads of an `*http.Response`: the status and
the outcome of `io.ReadAll(resp.Body)`, a body of type `β` or an error. -/
structure HTTPResponse (β : Type) where
  StatusCode : Nat
  Status : String
  Body : Except String β

/-- GetDockerHubResponse makes a request to Docker Hub API and returns the
response body.  `httpGet` is `http.Get`, acting on the state `σ` of the
outside world. -/
def GetDockerHubResponse {σ β : Type} (s : HELMService)
    (httpGet : String → σ → Except String (HTTPResponse β) × σ)
    (imageName : String) (w : σ) : Except String β × σ :=
  let (repository, tag) := repositoryAndTag imageName
  let url := dockerHubURL s repository tag
  match httpGet url w with
  | (.error err, w1) => (.error ("error requesting Docker Hub: " ++ err), w1)
  | (.ok resp, w1) =>
    if resp.StatusCode ≠ 200 then
      (.error ("error getting image information: " ++ resp.Status), w1)
    else
      match resp.Body with
      | .error err => (.error ("error reading response: " ++ err), w1)
      | .ok body => (.ok body, w1)

/-- GetImageSize parses image size from Docker Hub API response.  `unmarshal`
is `json.Unmarshal(body, &result)` for the struct with the single field
`FullSize int64` tagged `full_size`: the value of the field afterwards and
the error. -/
def GetImageSize {β : Type} (unmarshal : β → Int × Option String) (body : β) :
    Int × Option String :=
  match unmarshal body with
  | (_, some err) => (0, some ("error parsing JSON: " ++ err))
  | (fullSize, none) =>
    if fullSize = 0 then
      (0, some "invalid response: full_size field is missing or zero")
    else (fullSize, none)

/-- GetImageLayers gets the number of layers for an image. -/
def GetImageLayers {β : Type} (_body : β) : Int × Option String :=
  (0, none)

/-- The spacing of the doubles around `n`: 1 below `2 ^ 53` (a double holds
53 significant bits) and twice as much each time `n` doubles.  The first
argument bounds the number of halvings. -/
def float64Spacing : Nat → Nat → Nat
  | 0, _ => 1
  | fuel + 1, n => if n < 2 ^ 53 then 1 else 2 * float64Spacing fuel (n / 2)

/-- The conversion `float64(size)` of a non-negative `int64`: the nearest
double, ties to the one with an even significand.  Every double that arises
here is a natural number, so the result is given as one. -/
def float64OfNat (n : Nat) : Nat :=
  let ulp := float64Spacing n n
  let q := n / ulp
  let r := n % ulp
  if 2 * r < ulp then q * ulp
  else if ulp < 2 * r then (q + 1) * ulp
  else if q % 2 = 0 then q * ulp
  else (q + 1) * ulp

/-- The integer nearest to `num / den`, ties to the even one. -/
def roundHalfEven (num den : Nat) : Nat :=
  let q := num / den
  let r := num % den
  if 2 * r < den then q
  else if den < 2 * r then q + 1
  else if q % 2 = 0 then q
  else q + 1

/-- The decimal numeral with exactly two decimals for `h` hundredths. -/
def twoDecimals (h : Nat) : String :=
  toString (h / 100) ++ "." ++ String.mk [Nat.digitChar (h % 100 / 10), Nat.digitChar (h % 10)]

/-- Go's `fmt.Sprintf("%.2f", x / d)` for a non-negative double `x` that is a
natural number and a divisor `d` that is a power of two: the quotient of two
doubles by a power of two is exact, and the verb `%.2f` prints the exact
value rounded to two decimals, ties to even. -/
def sprintf2f (x d : Nat) : String :=
  twoDecimals (roundHalfEven (100 * x) d)

/-- formatSize converts bytes to human-readable format. -/
def formatSize (size : Int) : String :=
  if size < 1024 then
    toString size ++ " B"
  else if size < 1024 * 1024 then
    sprintf2f (float64OfNat size.toNat) 1024 ++ " KB"
  else if size < 1024 * 1024 * 1024 then
    sprintf2f (float64OfNat size.toNat) (1024 * 1024) ++ " MB"
  else
    sprintf2f (float64OfNat size.toNat) (1024 * 1024 * 1024) ++ " GB"

/-- GetImageInfo gets image size from Docker Hub. -/
def GetImageInfo {σ β : Type} (s : HELMService)
    (httpGet : String → σ → Except String (HTTPResponse β) × σ)
    (unmarshal : β → Int × Option String) (imageName : String) (w : σ) :
    (String × Int × Option String) × σ :=
  match GetDockerHubResponse s httpGet imageName w with
  | (.error err, w1) => (("", 0, some ("failed to get DockerHub response: " ++ err)), w1)
  | (.ok body, w1) =>
    match GetImageSize unmarshal body with
    | (_, some err) => (("", 0, some ("failed to get image size: " ++ err)), w1)
    | (size, none) =>
      match GetImageLayers body with
      | (_, some err) => (("", 0, some ("failed to get image layers: " ++ err)), w1)
      | (layers, none) => ((formatSize size, layers, none), w1)

/-! ## The library function `json.Unmarshal` on registry bodies -/

/-- A JSON number literal, as the decoder stores it into an `int64`: a
literal without fraction and exponent is an integer, any other literal is
kept as its text. -/
inductive JSONNumber where
  | integer (n : Int)
  | fractional (literal : String)
  deriving Repr

/-- A JSON value. -/
inductive JSON where
  | null
  | bool (b : Bool)
  | number (n : JSONNumber)
  | string (s : String)
  | array (items : List JSON)
  | object (members : List (String × JSON))
  deriving Repr

/-- A registry response body as `json.Unmarshal` sees it: bytes that fail the
syntax check, with the text of the syntax error, or a JSON document. -/
inductive ResponseBody where
  | malformed (err : String)
  | document (value : JSON)
  deriving Repr

/-- The text of a `json.UnmarshalTypeError` for the field `full_size`. -/
def fieldTypeError (value : String) : String :=
  "json: cannot unmarshal " ++ value ++ " into Go struct field .full_size of type int64"

/-- The text of a `json.UnmarshalTypeError` for the struct itself. -/
def structTypeError (value : String) : String :=
  "json: cannot unmarshal " ++ value ++ " into Go value of type struct"

/-- Simple case folding of the characters that fold to an ASCII letter: the
long s (U+017F), the Kelvin sign (U+212A) and the ASCII capitals. -/
def foldRune (c : Char) : Char :=
  if c = Char.ofNat 0x17F then 's'
  else if c = Char.ofNat 0x212A then 'k'
  else c.toLower

/-- The member keys that `encoding/json` stores into the field tagged
`full_size`: the exact name or a name equal to it under case folding. -/
def matchesFullSize (key : String) : Bool :=
  key.toList.map foldRune == "full_size".toList

/-- The decoding of one member value into the `int64` field whose current
value is `field`: the new value of the field and the type error, if any. -/
def storeFullSize (field : Int) : JSON → Int × Option String
  | .null => (field, none)
  | .number (.integer n) =>
    if -(2 ^ 63) ≤ n ∧ n < 2 ^ 63 then (n, none)
    else (field, some (fieldTypeError ("number " ++ toString n)))
  | .number (.fractional literal) => (field, some (fieldTypeError ("number " ++ literal)))
  | .bool _ => (field, some (fieldTypeError "bool"))
  | .string _ => (field, some (fieldTypeError "string"))
  | .array _ => (field, some (fieldTypeError "array"))
  | .object _ => (field, some (fieldTypeError "object"))

/-- The decoding of the members of an object, in order, into the struct: the
value of `FullSize` and the first type error met. -/
def decodeMembers : List (String × JSON) → Int × Option String → Int × Option String
  | [], state => state
  | (key, value) :: rest, (field, saved) =>
    if matchesFullSize key then
      match storeFullSize field value with
      | (field1, err) => decodeMembers rest (field1, if saved.isSome then saved else err)
    else decodeMembers rest (field, saved)

/-- The library call `json.Unmarshal(body, &result)` for `result` of type
`struct { FullSize int64 "json:full_size" }`, initially zero: the value of
`result.FullSize` afterwards and the error returned. -/
def jsonUnmarshal : ResponseBody → Int × Option String
  | .malformed err => (0, some err)
  | .document .null => (0, none)
  | .document (.object members) => decodeMembers members (0, none)
  | .document (.bool _) => (0, some (structTypeError "bool"))
  | .document (.number _) => (0, some (structTypeError "number"))
  | .document (.string _) => (0, some (structTypeError "string"))
  | .document (.array _) => (0, some (structTypeError "array"))

/-- The test server of `TestGetImageInfo`: every request is answered with
status 200 and the body `{"full_size": fullSize}`; the outside world has no
state. -/
def registryStub (fullSize : Int) (_url : String) (w : Unit) :
    Except String (HTTPResponse ResponseBody) × Unit :=
  (.ok { StatusCode := 200, Status := "200 OK",
         Body := .ok (.document (.object [("full_size", .number (.integer fullSize))])) }, w)

/-- Specification side: `httpGet` with a log of the requested URLs added to
the state of the outside world; the answers are those of `httpGet`. -/
def logRequests {σ β : Type} (httpGet : String → σ → Except String (HTTPResponse β) × σ)
    (url : String) (state : σ × List String) :
    Except String (HTTPResponse β) × (σ × List String) :=
  match httpGet url state.1 with
  | (resp, w1) => (resp, (w1, state.2 ++ [url]))


/-- A mapping node whose "image" value is a string. -/
def hasStringImage : Node → Bool
  | .mapping v =>
    match v.lookup "image" with
    | some (.str _) => true
    | _ => false
  | _ => false

/-- A mapping node whose "image" value is a mapping with a non-empty string
under "repository". -/
def hasStructuredImage : Node → Bool
  | .mapping v =>
    match v.lookup "image" with
    | some (.mapping imageMap) =>
      match imageMap.lookup "repository" with
      | some (.str r) => decide (r ≠ "")
      | _ => false
    | _ => false
  | _ => false


/-! ## Iteration order of mappings -/

mutual
/-- `Reordered a b`: the tree `b` is the tree `a` with the entries of its
mappings, at any depth, visited in another order.  The keys and the values of
each mapping are the same, sequences keep their order. -/
inductive Reordered : Node → Node → Prop
  | same (n : Node) : Reordered n n
  | mapping {v v1 v2 : List (String × Node)} :
      ReorderedValues v v1 → v1.Perm v2 → Reordered (.mapping v) (.mapping v2)
  | sequence {l l2 : List Node} : ReorderedItems l l2 → Reordered (.sequence l) (.sequence l2)
/-- The values of the entries are reordered inside, entry by entry. -/
inductive ReorderedValues : List (String × Node) → List (String × Node) → Prop
  | nil : ReorderedValues [] []
  | cons {key : String} {value value2 : Node} {rest rest2 : List (String × Node)} :
      Reordered value value2 → ReorderedValues rest rest2 →
      ReorderedValues ((key, value) :: rest) ((key, value2) :: rest2)
/-- The elements of a sequence are reordered inside, element by element. -/
inductive ReorderedItems : List Node → List Node → Prop
  | nil : ReorderedItems [] []
  | cons {item item2 : Node} {rest rest2 : List Node} :
      Reordered item item2 → ReorderedItems rest rest2 →
      ReorderedItems (item :: rest) (item2 :: rest2)
end

/-- Every mapping node of the tree has pairwise different keys, as every Go
map has. -/
def uniqueKeys (root : Node) : Prop :=
  ∀ entries, Node.mapping entries ∈ subnodes root → (entries.map Prod.fst).Nodup

/-- The subtree holds an image reference: one of its nodes has the string
shape or the structured shape. -/
def holdsImage (n : Node) : Bool :=
  (subnodes n).any (fun m => hasStringImage m || hasStructuredImage m)

/-- Every mapping node of the tree has at most one key whose subtree holds an
image reference. -/
def atMostOneImageKey (root : Node) : Prop :=
  ∀ entries, Node.mapping entries ∈ subnodes root →
    entries.countP (fun kv => holdsImage kv.2) ≤ 1


/-- A chart with two image references under different keys, and the same chart
with the two keys visited in the other order. -/
def twoImages : Node × Node :=
  (.mapping [("web", .mapping [("image", .str "nginx:1.21")]),
             ("db", .mapping [("image", .str "postgres:16")])],
   .mapping [("db", .mapping [("image", .str "postgres:16")]),
             ("web", .mapping [("image", .str "nginx:1.21")])])

/-- A chart with one image reference, and the same chart with the keys of both
mappings visited in the other order. -/
def oneImage : Node × Node :=
  (.mapping [("replicas", .int 2),
             ("app", .mapping [("image", .str "nginx:1.21"), ("name", .str "web")])],
   .mapping [("app", .mapping [("name", .str "web"), ("image", .str "nginx:1.21")]),
             ("replicas", .int 2)])


/-! # Theorems -/

/-! ## The scanner -/

theorem FindContainerImages_mapping (v : List (String × Node)) :
    FindContainerImages (.mapping v) = helmChartImage v ++ directImage v ++ rangeValues v := by
  simp [FindContainerImages]

theorem FindContainerImages_sequence (v : List Node) :
    FindContainerImages (.sequence v) = rangeItems v := by
  simp [FindContainerImages]

theorem FindContainerImages_of_isScalar (n : Node) (h : n.isScalar = true) :
    FindContainerImages n = [] := by
  cases n <;> simp_all [FindContainerImages, Node.isScalar]

theorem rangeValues_of_scalars (v : List (String × Node))
    (h : ∀ kv ∈ v, kv.2.isScalar = true) : rangeValues v = [] := by
  induction v with
  | nil => simp [rangeValues]
  | cons kv rest ih =>
    obtain ⟨k, value⟩ := kv
    have h1 : value.isScalar = true := h (k, value) (List.mem_cons_self _ _)
    have h2 : rangeValues rest = [] := ih (fun p hp => h p (List.mem_cons_of_mem _ hp))
    simp [rangeValues, FindContainerImages_of_isScalar value h1, h2]

mutual
theorem FindContainerImages_subset_of_mem_subnodes :
    (root m : Node) → m ∈ subnodes root → FindContainerImages m ⊆ FindContainerImages root
  | .mapping v, m, h => by
    simp only [subnodes, List.mem_cons] at h
    rcases h with rfl | h
    · exact List.Subset.refl _
    · rw [FindContainerImages_mapping]
      exact List.subset_append_of_subset_right _ (rangeValues_subset_of_mem v m h)
  | .sequence v, m, h => by
    simp only [subnodes, List.mem_cons] at h
    rcases h with rfl | h
    · exact List.Subset.refl _
    · rw [FindContainerImages_sequence]
      exact rangeItems_subset_of_mem v m h
  | .str _, m, h => by simp [subnodes] at h; subst h; exact List.Subset.refl _
  | .int _, m, h => by simp [subnodes] at h; subst h; exact List.Subset.refl _
  | .float _, m, h => by simp [subnodes] at h; subst h; exact List.Subset.refl _
  | .bool _, m, h => by simp [subnodes] at h; subst h; exact List.Subset.refl _
  | .null, m, h => by simp [subnodes] at h; subst h; exact List.Subset.refl _
  | .other _, m, h => by simp [subnodes] at h; subst h; exact List.Subset.refl _
theorem rangeValues_subset_of_mem :
    (v : List (String × Node)) → (m : Node) → m ∈ subnodesOfValues v →
      FindContainerImages m ⊆ rangeValues v
  | [], m, h => by simp [subnodesOfValues] at h
  | (_, value) :: rest, m, h => by
    simp only [subnodesOfValues, List.mem_append] at h
    simp only [rangeValues]
    rcases h with h | h
    · exact List.subset_append_of_subset_left _
        (FindContainerImages_subset_of_mem_subnodes value m h)
    · exact List.subset_append_of_subset_right _ (rangeValues_subset_of_mem rest m h)
theorem rangeItems_subset_of_mem :
    (v : List Node) → (m : Node) → m ∈ subnodesOfItems v →
      FindContainerImages m ⊆ rangeItems v
  | [], m, h => by simp [subnodesOfItems] at h
  | item :: rest, m, h => by
    simp only [subnodesOfItems, List.mem_append] at h
    simp only [rangeItems]
    rcases h with h | h
    · exact List.subset_append_of_subset_left _
        (FindContainerImages_subset_of_mem_subnodes item m h)
    · exact List.subset_append_of_subset_right _ (rangeItems_subset_of_mem rest m h)
end

/-- C1. An image reference is found at any depth: whenever a mapping node
reachable from the root through mapping values and sequence elements has key
"image" with a string value `s`, the result of `FindContainerImages` on the
root contains a record whose `Name` is `s`. -/
theorem FindContainerImages_finds_image_at_any_depth (root : Node)
    (entries : List (String × Node)) (s : String)
    (hreach : Node.mapping entries ∈ subnodes root)
    (himage : entries.lookup "image" = some (.str s)) :
    ∃ img ∈ FindContainerImages root, img.Name = s := by
  have hsub := FindContainerImages_subset_of_mem_subnodes root (.mapping entries) hreach
  refine ⟨{ Name := s, Container := asString (entries.lookup "name") }, hsub ?_, rfl⟩
  rw [FindContainerImages_mapping]
  apply List.mem_append_left
  apply List.mem_append_right
  simp only [directImage, himage, List.mem_singleton]
  cases hname : entries.lookup "name" with
  | none => rfl
  | some n => cases n <;> rfl

theorem FindContainerImages_finds_image_at_any_depth_witness :
    Node.mapping [("image", .str "busybox:1.36")] ∈
        subnodes (.mapping [("spec", .mapping [("containers",
          .sequence [.mapping [("image", .str "busybox:1.36")]])])]) ∧
      ∃ img ∈ FindContainerImages (.mapping [("spec", .mapping [("containers",
          .sequence [.mapping [("image", .str "busybox:1.36")]])])]),
        img.Name = "busybox:1.36" :=
  ⟨by simp [subnodes, subnodesOfValues, subnodesOfItems],
   FindContainerImages_finds_image_at_any_depth _ [("image", .str "busybox:1.36")] _
     (by simp [subnodes, subnodesOfValues, subnodesOfItems]) rfl⟩

theorem isScalar_of_lookup (v : List (String × Node)) (key : String) (n : Node)
    (hscalar : ∀ kv ∈ v, kv.2.isScalar = true) (h : v.lookup key = some n) :
    n.isScalar = true := by
  induction v with
  | nil => simp [List.lookup] at h
  | cons kv rest ih =>
    obtain ⟨k, value⟩ := kv
    rw [List.lookup_cons] at h
    by_cases hk : (key == k) = true
    · rw [hk] at h
      have hv : value = n := by simpa using h
      subst hv
      exact hscalar (k, value) (List.mem_cons_self _ _)
    · have hk2 : (key == k) = false := by simpa using hk
      rw [hk2] at h
      exact ih (fun p hp => hscalar p (List.mem_cons_of_mem _ hp)) h

theorem helmChartImage_of_scalars (v : List (String × Node))
    (hscalar : ∀ kv ∈ v, kv.2.isScalar = true) : helmChartImage v = [] := by
  unfold helmChartImage
  cases h : v.lookup "image" with
  | none => rfl
  | some n =>
    have hn := isScalar_of_lookup v "image" n hscalar h
    cases n <;> simp_all [Node.isScalar]

theorem helmChartImage_eq (v imageMap : List (String × Node)) (r : String)
    (himage : v.lookup "image" = some (.mapping imageMap))
    (hrepo : imageMap.lookup "repository" = some (.str r)) (hr : r ≠ "") :
    helmChartImage v =
      [{ Name := r ++ ":" ++
            (if asString (imageMap.lookup "tag") = "" then "latest"
              else asString (imageMap.lookup "tag")),
         Container := "" }] := by
  simp [helmChartImage, himage, hrepo, asString, hr]

/-- C2 (amended). Structured image shape: when the "image" value of a mapping
node is a mapping whose "repository" is a non-empty string `r`, the first
record returned by `FindContainerImages` is `r:t` with an empty container,
where `t` is the value of "tag" when that value is a non-empty string and
"latest" when "tag" is absent, empty or not a string; when the node has no
other key, the image mapping holds only scalar values and has no string under
a key "image" of its own, that record is the only one. -/
theorem FindContainerImages_structured_image (entries imageMap : List (String × Node))
    (r : String)
    (himage : entries.lookup "image" = some (.mapping imageMap))
    (hrepo : imageMap.lookup "repository" = some (.str r)) (hr : r ≠ "") :
    (∀ t, imageMap.lookup "tag" = some (.str t) → t ≠ "" →
        (FindContainerImages (.mapping entries)).head? =
          some { Name := r ++ ":" ++ t, Container := "", Size := "", Layers := 0 }) ∧
    ((∀ t, imageMap.lookup "tag" = some (.str t) → t = "") →
        (FindContainerImages (.mapping entries)).head? =
          some { Name := r ++ ":" ++ "latest", Container := "", Size := "", Layers := 0 }) ∧
    (entries = [("image", .mapping imageMap)] →
      (∀ kv ∈ imageMap, kv.2.isScalar = true) →
      (∀ s, imageMap.lookup "image" ≠ some (.str s)) →
        (FindContainerImages (.mapping entries)).length = 1) := by
  have hfirst := helmChartImage_eq entries imageMap r himage hrepo hr
  refine ⟨?_, ?_, ?_⟩
  · intro t htag ht
    rw [FindContainerImages_mapping, hfirst]
    simp [htag, asString, ht]
  · intro htag
    rw [FindContainerImages_mapping, hfirst]
    cases h : imageMap.lookup "tag" with
    | none => simp [asString]
    | some n =>
      cases n with
      | str t => simp [asString, htag t h]
      | _ => simp [asString]
  · intro hentries hscalar hnoimage
    have hdirect : directImage entries = [] := by simp [directImage, himage]
    have hinner : FindContainerImages (.mapping imageMap) = [] := by
      rw [FindContainerImages_mapping, helmChartImage_of_scalars imageMap hscalar,
        rangeValues_of_scalars imageMap hscalar]
      unfold directImage
      cases h : imageMap.lookup "image" with
      | none => rfl
      | some n =>
        cases n with
        | str s => exact absurd h (hnoimage s)
        | _ => rfl
    rw [FindContainerImages_mapping, hfirst, hdirect, hentries]
    simp [rangeValues, hinner]

theorem FindContainerImages_structured_image_witness :
    (FindContainerImages (.mapping [("image", .mapping [("repository", .str "nginx"),
        ("tag", .str "1.21")])])).head? = some { Name := "nginx:1.21" } ∧
    (FindContainerImages (.mapping [("image", .mapping [("repository", .str "nginx"),
        ("tag", .str "1.21")])])).length = 1 :=
  have h := FindContainerImages_structured_image
    [("image", .mapping [("repository", .str "nginx"), ("tag", .str "1.21")])]
    [("repository", .str "nginx"), ("tag", .str "1.21")] "nginx" rfl rfl (by decide)
  ⟨h.1 "1.21" rfl (by decide),
   h.2.2 rfl (by simp [Node.isScalar]) (by simp [List.lookup])⟩

/-- C2, the claim as stated fails: the image mapping of the first document
holds only scalar values and the node has no other key, yet two records are
returned; the "tag" of the second document is present and not empty (the
number 1.21), yet the name ends in the default "latest". -/
theorem FindContainerImages_structured_image_counterexample :
    (∀ kv ∈ [("repository", Node.str "nginx"), ("image", Node.str "alpine")],
        kv.2.isScalar = true) ∧
    FindContainerImages (.mapping [("image", .mapping [("repository", .str "nginx"),
        ("image", .str "alpine")])])
      = [{ Name := "nginx:latest" }, { Name := "alpine" }] ∧
    FindContainerImages (.mapping [("image", .mapping [("repository", .str "nginx"),
        ("tag", .float 0x3ff35c28f5c28f5c)])])
      = [{ Name := "nginx:latest" }] := by
  refine ⟨by simp [Node.isScalar], by decide, by decide⟩

/-- C3. String image shape: when the "image" value of a mapping node is a
string `s`, the first record returned by `FindContainerImages` is
`(Name := s, Container := c)`, where `c` is the value of the sibling key "name"
when that value is a string and `""` when the key is absent or not a string;
when every other entry of the node holds a scalar, it is the only record. -/
theorem FindContainerImages_string_image (entries : List (String × Node)) (s : String)
    (himage : entries.lookup "image" = some (.str s)) :
    (∀ c, entries.lookup "name" = some (.str c) →
        (FindContainerImages (.mapping entries)).head? =
          some { Name := s, Container := c, Size := "", Layers := 0 }) ∧
    ((∀ c, entries.lookup "name" ≠ some (.str c)) →
        (FindContainerImages (.mapping entries)).head? =
          some { Name := s, Container := "", Size := "", Layers := 0 }) ∧
    ((∀ kv ∈ entries, kv ≠ ("image", Node.str s) → kv.2.isScalar = true) →
        (FindContainerImages (.mapping entries)).length = 1) := by
  have hchart : helmChartImage entries = [] := by simp [helmChartImage, himage]
  refine ⟨?_, ?_, ?_⟩
  · intro c hname
    rw [FindContainerImages_mapping, hchart]
    simp [directImage, himage, hname]
  · intro hname
    rw [FindContainerImages_mapping, hchart]
    cases h : entries.lookup "name" with
    | none => simp [directImage, himage, h]
    | some n =>
      cases n with
      | str c => exact absurd h (hname c)
      | _ => simp [directImage, himage, h]
  · intro hothers
    have hscalar : ∀ kv ∈ entries, kv.2.isScalar = true := by
      intro kv hkv
      by_cases heq : kv = ("image", Node.str s)
      · rw [heq]; rfl
      · exact hothers kv hkv heq
    rw [FindContainerImages_mapping, hchart, rangeValues_of_scalars entries hscalar]
    simp [directImage, himage]

theorem FindContainerImages_string_image_witness :
    (FindContainerImages (.mapping [("image", .str "alpine:3.18"),
        ("name", .str "test-container")])).head? =
      some { Name := "alpine:3.18", Container := "test-container" } ∧
    (FindContainerImages (.mapping [("image", .str "alpine:3.18"),
        ("name", .str "test-container")])).length = 1 :=
  have h := FindContainerImages_string_image
    [("image", .str "alpine:3.18"), ("name", .str "test-container")] "alpine:3.18" rfl
  ⟨h.1 "test-container" rfl, h.2.2 (by simp [Node.isScalar])⟩

mutual
theorem FindContainerImages_eq_nil_of_no_image :
    (root : Node) →
      (∀ entries, Node.mapping entries ∈ subnodes root → entries.lookup "image" = none) →
      FindContainerImages root = []
  | .mapping v, h => by
    have hv : v.lookup "image" = none := h v (by simp [subnodes])
    have hrest := rangeValues_eq_nil_of_no_image v
      (fun entries he => h entries (by simp [subnodes, he]))
    rw [FindContainerImages_mapping, hrest]
    simp [helmChartImage, directImage, hv]
  | .sequence v, h => by
    rw [FindContainerImages_sequence]
    exact rangeItems_eq_nil_of_no_image v
      (fun entries he => h entries (by simp [subnodes, he]))
  | .str _, _ => by simp [FindContainerImages]
  | .int _, _ => by simp [FindContainerImages]
  | .float _, _ => by simp [FindContainerImages]
  | .bool _, _ => by simp [FindContainerImages]
  | .null, _ => by simp [FindContainerImages]
  | .other _, _ => by simp [FindContainerImages]
theorem rangeValues_eq_nil_of_no_image :
    (v : List (String × Node)) →
      (∀ entries, Node.mapping entries ∈ subnodesOfValues v →
        entries.lookup "image" = none) →
      rangeValues v = []
  | [], _ => by simp [rangeValues]
  | (_, value) :: rest, h => by
    have h1 := FindContainerImages_eq_nil_of_no_image value
      (fun entries he => h entries (by simp [subnodesOfValues, he]))
    have h2 := rangeValues_eq_nil_of_no_image rest
      (fun entries he => h entries (by simp [subnodesOfValues, he]))
    simp [rangeValues, h1, h2]
theorem rangeItems_eq_nil_of_no_image :
    (v : List Node) →
      (∀ entries, Node.mapping entries ∈ subnodesOfItems v →
        entries.lookup "image" = none) →
      rangeItems v = []
  | [], _ => by simp [rangeItems]
  | item :: rest, h => by
    have h1 := FindContainerImages_eq_nil_of_no_image item
      (fun entries he => h entries (by simp [subnodesOfItems, he]))
    have h2 := rangeItems_eq_nil_of_no_image rest
      (fun entries he => h entries (by simp [subnodesOfItems, he]))
    simp [rangeItems, h1, h2]
end

/-- C4. On every document tree in which no mapping node at any depth has a
key "image" (scalar, null and empty documents included) the total function
`FindContainerImages`, which has no failure outcome, returns the empty
sequence. -/
theorem FindContainerImages_empty_without_image_key (root : Node)
    (hnone : ∀ entries, Node.mapping entries ∈ subnodes root →
      entries.lookup "image" = none) :
    FindContainerImages root = [] :=
  FindContainerImages_eq_nil_of_no_image root hnone

theorem FindContainerImages_empty_without_image_key_witness :
    (∀ entries, Node.mapping entries ∈
        subnodes (.mapping [("replicas", .int 3), ("ports", .sequence [.int 80, .null])]) →
      entries.lookup "image" = none) ∧
    FindContainerImages
      (.mapping [("replicas", .int 3), ("ports", .sequence [.int 80, .null])]) = [] :=
  ⟨by
      intro entries he
      simp [subnodes, subnodesOfValues, subnodesOfItems] at he
      subst he
      rfl,
   FindContainerImages_empty_without_image_key _ (by
      intro entries he
      simp [subnodes, subnodesOfValues, subnodesOfItems] at he
      subst he
      rfl)⟩

/-! ## The handler -/

namespace handlers

theorem enrichImages_of_lookupAll {σ : Type} (svc : HELMService σ) :
    ∀ (images : List ContainerImage) (w w2 : σ) (infos : List (String × Int)),
      lookupAll svc (images.map (fun image => image.Name)) w = some (infos, w2) →
      enrichImages svc images w =
          (.ok (List.zipWith
            (fun image info => { image with Size := info.1, Layers := info.2 })
            images infos), w2) ∧
        infos.length = images.length
  | [], w, w2, infos, h => by
    simp only [List.map_nil, lookupAll, Option.some.injEq, Prod.mk.injEq] at h
    obtain ⟨h1, h2⟩ := h
    subst h1 h2
    simp [enrichImages]
  | image :: rest, w, w2, infos, h => by
    rcases hcall : svc.GetImageInfo image.Name w with ⟨⟨size, layers, err⟩, w1⟩
    cases err with
    | some e => simp [lookupAll, hcall] at h
    | none =>
      simp only [List.map_cons, lookupAll, hcall] at h
      cases hrest : lookupAll svc (rest.map (fun image => image.Name)) w1 with
      | none => simp [hrest] at h
      | some p =>
        obtain ⟨infos1, w3⟩ := p
        simp only [hrest, Option.some.injEq, Prod.mk.injEq] at h
        obtain ⟨h1, h2⟩ := h
        subst h1 h2
        have ih := enrichImages_of_lookupAll svc rest w1 w3 infos1 hrest
        simp [enrichImages, hcall, ih.1, ih.2]

theorem enrichImages_append_error {σ : Type} (svc : HELMService σ)
    (rest : List ContainerImage) (response : Response) (w2 w3 : σ)
    (hrest : enrichImages svc rest w2 = (.error response, w3)) :
    ∀ (pre : List ContainerImage) (w : σ) (infos : List (String × Int)),
      lookupAll svc (pre.map (fun image => image.Name)) w = some (infos, w2) →
      enrichImages svc (pre ++ rest) w = (.error response, w3)
  | [], w, infos, h => by
    simp only [List.map_nil, lookupAll, Option.some.injEq, Prod.mk.injEq] at h
    obtain ⟨_, h2⟩ := h
    subst h2
    simpa using hrest
  | image :: pre, w, infos, h => by
    rcases hcall : svc.GetImageInfo image.Name w with ⟨⟨size, layers, err⟩, w1⟩
    cases err with
    | some e => simp [lookupAll, hcall] at h
    | none =>
      simp only [List.map_cons, lookupAll, hcall] at h
      cases hpre : lookupAll svc (pre.map (fun image => image.Name)) w1 with
      | none => simp [hpre] at h
      | some p =>
        obtain ⟨infos1, w4⟩ := p
        simp only [hpre, Option.some.injEq, Prod.mk.injEq] at h
        obtain ⟨_, h2⟩ := h
        subst h2
        have ih := enrichImages_append_error svc rest response w4 w3 hrest pre w1 infos1 hpre
        simp [enrichImages, hcall, ih]

/-- C5. Abort on the first failure in `LoadHELM`: when the document loads and,
in list order, the lookups of the images `pre` all succeed and the lookup of
the next image `image` fails with `cause`, the response is status 500 with
`success = false`, no image list and the error "Failed to get size for image
NAME: CAUSE" for that image; the state of the outside world is the one left by
the failing lookup, so no later image is looked up, and the sizes `infos`
computed for `pre` appear nowhere in the response. -/
theorem LoadHELM_aborts_on_first_failure {σ : Type} (svc : HELMService σ)
    (request : HELMRequest) (w w1 w2 w3 : σ) (yamlContent : Node)
    (pre post : List ContainerImage) (image : ContainerImage)
    (infos : List (String × Int)) (size : String) (layers : Int) (cause : String)
    (hload : svc.LoadAndParseYAML request.URL w = ((yamlContent, none), w1))
    (hfound : svc.FindContainerImages yamlContent = pre ++ image :: post)
    (hpre : lookupAll svc (pre.map (fun image => image.Name)) w1 = some (infos, w2))
    (hfail : svc.GetImageInfo image.Name w2 = ((size, layers, some cause), w3)) :
    LoadHELM svc (some request) w =
      (⟨500, .helm { Success := false, Data := none,
                     Error := "Failed to get size for image " ++ image.Name ++ ": " ++ cause }⟩,
       w3) := by
  have hrest : enrichImages svc (image :: post) w2 =
      (.error ⟨500, .helm
        { Success := false, Data := none,
          Error := "Failed to get size for image " ++ image.Name ++ ": " ++ cause }⟩, w3) := by
    simp [enrichImages, hfail]
  have hall := enrichImages_append_error svc (image :: post) _ w2 w3 hrest pre w1 infos hpre
  simp [LoadHELM, hload, hfound, hall]

end handlers

namespace handlers

theorem LoadHELM_aborts_on_first_failure_witness :
    LoadHELM (stubService ["nginx:latest"]) (some ⟨"http://example.com/chart.yaml"⟩) [] =
      (⟨500, .helm { Success := false, Data := none,
                     Error := "Failed to get size for image busybox:1.36: not found" }⟩,
       ["nginx:latest", "busybox:1.36"]) :=
  LoadHELM_aborts_on_first_failure (stubService ["nginx:latest"])
    ⟨"http://example.com/chart.yaml"⟩ [] [] ["nginx:latest"] ["nginx:latest", "busybox:1.36"]
    sampleChart [{ Name := "nginx:latest" }] [{ Name := "alpine:3.18" }]
    { Name := "busybox:1.36" } [("100.00 MB", 5)] "" 0 "not found" rfl (by decide) (by decide)
    (by decide)

/-- C6. Successful enrichment changes only size and layers: when the document
loads and `GetImageInfo` succeeds for every image found, called in list order
and returning the pairs `infos`, the response is status 200 with
`success = true` and a list of the same length as the list returned by
`FindContainerImages`, whose record at each position has the `Name` and
`Container` of the found record at that position and the `Size` and `Layers`
returned by the lookup of that record. -/
theorem LoadHELM_success_changes_only_size_and_layers {σ : Type} (svc : HELMService σ)
    (request : HELMRequest) (w w1 w2 : σ) (yamlContent : Node)
    (infos : List (String × Int))
    (hload : svc.LoadAndParseYAML request.URL w = ((yamlContent, none), w1))
    (hall : lookupAll svc
      ((svc.FindContainerImages yamlContent).map (fun image => image.Name)) w1
        = some (infos, w2)) :
    ∃ images : List ContainerImage,
      LoadHELM svc (some request) w =
          (⟨200, .images { Success := true, Images := images }⟩, w2) ∧
      images.length = (svc.FindContainerImages yamlContent).length ∧
      ∀ (i : Nat) (found : ContainerImage),
        (svc.FindContainerImages yamlContent)[i]? = some found →
        ∃ info, infos[i]? = some info ∧
          images[i]? = some { Name := found.Name, Container := found.Container,
                              Size := info.1, Layers := info.2 } := by
  obtain ⟨henrich, hlen⟩ :=
    enrichImages_of_lookupAll svc (svc.FindContainerImages yamlContent) w1 w2 infos hall
  refine ⟨_, by simp [LoadHELM, hload, henrich]; rfl, by simp [hlen], ?_⟩
  intro i found hfound
  have hi : i < (svc.FindContainerImages yamlContent).length := by
    by_contra hge
    rw [List.getElem?_eq_none (by omega)] at hfound
    exact Option.noConfusion hfound
  have hi2 : i < infos.length := by omega
  refine ⟨infos[i], List.getElem?_eq_getElem hi2, ?_⟩
  rw [List.getElem?_eq_getElem hi] at hfound
  have hf : (svc.FindContainerImages yamlContent)[i] = found := by simpa using hfound
  simp [List.getElem?_zipWith, List.getElem?_eq_getElem hi, List.getElem?_eq_getElem hi2, hf]

theorem LoadHELM_success_changes_only_size_and_layers_witness :
    ∃ images : List ContainerImage,
      LoadHELM (stubService ["nginx:latest", "busybox:1.36", "alpine:3.18"])
          (some ⟨"http://example.com/chart.yaml"⟩) [] =
        (⟨200, .images { Success := true, Images := images }⟩,
          ["nginx:latest", "busybox:1.36", "alpine:3.18"]) ∧
      images.length = (FindContainerImages sampleChart).length ∧
      ∀ (i : Nat) (found : ContainerImage),
        (FindContainerImages sampleChart)[i]? = some found →
        ∃ info, [("100.00 MB", (5 : Int)), ("100.00 MB", 5), ("100.00 MB", 5)][i]? = some info ∧
          images[i]? = some { Name := found.Name, Container := found.Container,
                              Size := info.1, Layers := info.2 } :=
  LoadHELM_success_changes_only_size_and_layers
    (stubService ["nginx:latest", "busybox:1.36", "alpine:3.18"])
    ⟨"http://example.com/chart.yaml"⟩ [] [] ["nginx:latest", "busybox:1.36", "alpine:3.18"]
    sampleChart [("100.00 MB", 5), ("100.00 MB", 5), ("100.00 MB", 5)] rfl (by decide)

end handlers

/-! ## The registry enricher -/

/-- C10 (code evaluated at the failing input). For the image name
"localhost:5000/app:1.0" the code takes "localhost" as repository and
"5000/app" as tag: the tag is the piece between the first and the second
":" and the rest of the name, ":1.0", is dropped, whereas the part after the
first ":" is "5000/app:1.0". -/
theorem repositoryAndTag_drops_after_second_colon :
    repositoryAndTag "localhost:5000/app:1.0" = ("localhost", "5000/app") ∧
    "localhost" ++ ":" ++ "5000/app:1.0" = "localhost:5000/app:1.0" ∧
    (repositoryAndTag "localhost:5000/app:1.0").2 ≠ "5000/app:1.0" := by
  decide

theorem errorParsing_ne_missingOrZero (err : String) :
    "error parsing JSON: " ++ err ≠ "invalid response: full_size field is missing or zero" := by
  intro h
  have hdata := congrArg String.data h
  simp at hdata

/-- C8 (amended). `GetImageSize` fails exactly when `json.Unmarshal` reports an
error for the body (a body that is not valid JSON, or valid JSON that does not
fit the struct) or leaves `full_size` at zero (field missing, null or 0); the
message is "error parsing JSON: ..." in the first case and "invalid response:
full_size field is missing or zero" in the second, and the two differ; for
every other body it succeeds and returns the decoded `full_size` unchanged.
A body that fails the syntax check is one of the bodies of the first case. -/
theorem GetImageSize_outcomes {β : Type} (unmarshal : β → Int × Option String) (body : β) :
    ((GetImageSize unmarshal body).2 = none ↔
        ((unmarshal body).2 = none ∧ (unmarshal body).1 ≠ 0)) ∧
    (∀ err, (unmarshal body).2 = some err →
        GetImageSize unmarshal body = (0, some ("error parsing JSON: " ++ err))) ∧
    ((unmarshal body).2 = none → (unmarshal body).1 = 0 →
        GetImageSize unmarshal body =
          (0, some "invalid response: full_size field is missing or zero")) ∧
    ((unmarshal body).2 = none → (unmarshal body).1 ≠ 0 →
        GetImageSize unmarshal body = ((unmarshal body).1, none)) ∧
    (∀ err, "error parsing JSON: " ++ err ≠
        "invalid response: full_size field is missing or zero") ∧
    (∀ err, GetImageSize jsonUnmarshal (.malformed err) =
        (0, some ("error parsing JSON: " ++ err))) := by
  rcases hcall : unmarshal body with ⟨fullSize, err⟩
  refine ⟨?_, ?_, ?_, ?_, errorParsing_ne_missingOrZero, fun err => rfl⟩
  · cases err with
    | some e => simp [GetImageSize, hcall]
    | none =>
      by_cases hzero : fullSize = 0
      · simp [GetImageSize, hcall, hzero]
      · simp [GetImageSize, hcall, hzero]
  · intro e he
    simp only at he
    subst he
    simp [GetImageSize, hcall]
  · intro he hzero
    simp only at he hzero
    subst he hzero
    simp [GetImageSize, hcall]
  · intro he hzero
    simp only at he hzero
    subst he
    simp [GetImageSize, hcall, hzero]

theorem GetImageSize_outcomes_witness :
    GetImageSize jsonUnmarshal
        (.document (.object [("full_size", .number (.integer 123456789))])) =
      (123456789, none) :=
  (GetImageSize_outcomes jsonUnmarshal
    (.document (.object [("full_size", .number (.integer 123456789))]))).2.2.2.1
    (by decide) (by decide)

/-- C8, the claim as stated fails: the bodies `{"full_size": 1.5}` and `[]`
are valid JSON, the first with a `full_size` that is present and not zero, the
second without the field; `GetImageSize` fails on the first, and on the second
it fails with the message of the parse error and not with the message of the
missing field. -/
theorem GetImageSize_counterexample :
    (∃ cause, GetImageSize jsonUnmarshal
        (.document (.object [("full_size", .number (.fractional "1.5"))])) =
      (0, some ("error parsing JSON: " ++ cause))) ∧
    (∃ cause, GetImageSize jsonUnmarshal (.document (.array [])) =
      (0, some ("error parsing JSON: " ++ cause))) :=
  ⟨⟨_, rfl⟩, ⟨_, rfl⟩⟩

/-! ## formatSize -/

theorem float64Spacing_of_lt (fuel n : Nat) (h : n < 2 ^ 53) : float64Spacing fuel n = 1 := by
  cases fuel with
  | zero => rfl
  | succ k => simp only [float64Spacing, if_pos h]

theorem float64OfNat_of_le (n : Nat) (h : n ≤ 2 ^ 53) : float64OfNat n = n := by
  rcases Nat.lt_or_ge n (2 ^ 53) with hlt | hge
  · simp [float64OfNat, float64Spacing_of_lt n n hlt, Nat.mod_one]
  · have hn : n = 2 ^ 53 := Nat.le_antisymm h hge
    subst hn
    decide

theorem roundHalfEven_nearest (num den : Nat) (hden : 0 < den) :
    2 * (den * roundHalfEven num den) ≤ 2 * num + den ∧
      2 * num ≤ 2 * (den * roundHalfEven num den) + den := by
  have hdiv := Nat.div_add_mod num den
  have hmod := Nat.mod_lt num hden
  have hsucc : den * (num / den + 1) = den * (num / den) + den := by ring
  unfold roundHalfEven
  simp only
  split_ifs <;> (try rw [hsucc]) <;> omega

theorem roundHalfEven_tie (num den : Nat) (hden : 0 < den)
    (htie : 2 * (den * roundHalfEven num den) = 2 * num + den ∨
      2 * num = 2 * (den * roundHalfEven num den) + den) :
    roundHalfEven num den % 2 = 0 := by
  have hdiv := Nat.div_add_mod num den
  have hmod := Nat.mod_lt num hden
  have hsucc : den * (num / den + 1) = den * (num / den) + den := by ring
  unfold roundHalfEven at htie ⊢
  simp only at htie ⊢
  split_ifs at htie ⊢ <;> (try rw [hsucc] at htie) <;> omega

theorem formatSize_bytes (n : Int) (h : n < 1024) : formatSize n = toString n ++ " B" := by
  simp [formatSize, h]

theorem formatSize_KB (n : Int) (h1 : 1024 ≤ n) (h2 : n < 1024 * 1024) :
    formatSize n = sprintf2f (float64OfNat n.toNat) 1024 ++ " KB" := by
  have h : ¬ n < 1024 := by omega
  simp only [formatSize, h, h2, if_true, if_false]

theorem formatSize_MB (n : Int) (h1 : 1024 * 1024 ≤ n) (h2 : n < 1024 * 1024 * 1024) :
    formatSize n = sprintf2f (float64OfNat n.toNat) (1024 * 1024) ++ " MB" := by
  have h : ¬ n < 1024 := by omega
  have h' : ¬ n < 1024 * 1024 := by omega
  simp only [formatSize, h, h', h2, if_true, if_false]

theorem formatSize_GB (n : Int) (h1 : 1024 * 1024 * 1024 ≤ n) :
    formatSize n = sprintf2f (float64OfNat n.toNat) (1024 * 1024 * 1024) ++ " GB" := by
  have h : ¬ n < 1024 := by omega
  have h' : ¬ n < 1024 * 1024 := by omega
  have h'' : ¬ n < 1024 * 1024 * 1024 := by omega
  simp only [formatSize, h, h', h'', if_false]

theorem sprintf2f_nearest (x d : Nat) (hd : 0 < d) :
    ∃ h : Nat, sprintf2f x d = twoDecimals h ∧
      |100 * (x : Int) - (d : Int) * (h : Int)| * 2 ≤ (d : Int) ∧
      (|100 * (x : Int) - (d : Int) * (h : Int)| * 2 = (d : Int) → h % 2 = 0) := by
  refine ⟨roundHalfEven (100 * x) d, rfl, ?_, ?_⟩
  · obtain ⟨h1, h2⟩ := roundHalfEven_nearest (100 * x) d hd
    generalize roundHalfEven (100 * x) d = h at h1 h2
    have h1' : 2 * ((d : Int) * (h : Int)) ≤ 2 * (100 * (x : Int)) + (d : Int) := by
      exact_mod_cast h1
    have h2' : 2 * (100 * (x : Int)) ≤ 2 * ((d : Int) * (h : Int)) + (d : Int) := by
      exact_mod_cast h2
    rcases abs_cases (100 * (x : Int) - (d : Int) * (h : Int)) with ⟨he, _⟩ | ⟨he, _⟩ <;>
      rw [he] <;> linarith
  · intro htie
    apply roundHalfEven_tie (100 * x) d hd
    generalize roundHalfEven (100 * x) d = h at htie ⊢
    rcases abs_cases (100 * (x : Int) - (d : Int) * (h : Int)) with ⟨he, _⟩ | ⟨he, _⟩
    · right
      rw [he] at htie
      have hint : 2 * (100 * (x : Int)) = 2 * ((d : Int) * (h : Int)) + (d : Int) := by
        linarith
      exact_mod_cast hint
    · left
      rw [he] at htie
      have hint : 2 * ((d : Int) * (h : Int)) = 2 * (100 * (x : Int)) + (d : Int) := by
        linarith
      exact_mod_cast hint

theorem nearest_ties_even_unique (m d : Int) (hd : 0 < d) (h h2 : Nat)
    (hnear : |m - d * (h : Int)| * 2 ≤ d) (htie : |m - d * (h : Int)| * 2 = d → h % 2 = 0)
    (hnear2 : |m - d * (h2 : Int)| * 2 ≤ d)
    (htie2 : |m - d * (h2 : Int)| * 2 = d → h2 % 2 = 0) : h = h2 := by
  have hub : (h : Int) ≤ h2 + 1 := by
    by_contra hlt
    have hstep : (h2 : Int) + 2 ≤ h := by omega
    have hmul : d * ((h2 : Int) + 2) ≤ d * h := mul_le_mul_of_nonneg_left hstep hd.le
    have e1 := neg_abs_le (m - d * (h : Int))
    have e2 := le_abs_self (m - d * (h2 : Int))
    nlinarith
  have hlb : (h2 : Int) ≤ h + 1 := by
    by_contra hlt
    have hstep : (h : Int) + 2 ≤ h2 := by omega
    have hmul : d * ((h : Int) + 2) ≤ d * h2 := mul_le_mul_of_nonneg_left hstep hd.le
    have e1 := neg_abs_le (m - d * (h2 : Int))
    have e2 := le_abs_self (m - d * (h : Int))
    nlinarith
  by_contra hne
  have hcases : (h : Int) = h2 + 1 ∨ (h2 : Int) = h + 1 := by omega
  rcases hcases with hc | hc
  · have e1 := neg_abs_le (m - d * (h : Int))
    have e2 := le_abs_self (m - d * (h2 : Int))
    have e3 : d * (h : Int) = d * h2 + d := by rw [hc]; ring
    have t1 : |m - d * (h : Int)| * 2 = d := by linarith
    have t2 : |m - d * (h2 : Int)| * 2 = d := by linarith
    have p1 := htie t1
    have p2 := htie2 t2
    omega
  · have e1 := neg_abs_le (m - d * (h2 : Int))
    have e2 := le_abs_self (m - d * (h : Int))
    have e3 : d * (h2 : Int) = d * h + d := by rw [hc]; ring
    have t1 : |m - d * (h : Int)| * 2 = d := by linarith
    have t2 : |m - d * (h2 : Int)| * 2 = d := by linarith
    have p1 := htie t1
    have p2 := htie2 t2
    omega

/-- C7 (amended). `formatSize` picks the unit by base-1024 thresholds: below
1024 it prints the integer followed by " B"; from 1024 it prints a numeral with
exactly two decimals followed by " KB", from 1024^2 by " MB" and from 1024^3
by " GB".  The numeral is the hundredth nearest to `n / 1024^k`, and the even
one of the two when `n / 1024^k` lies halfway between two hundredths, for
every `n` up to 2^53; above 2^53, where `float64(n)` may differ from `n`, it
is that rounding of `float64(n) / 1024^3`.  In particular 500, 1024, 1048576
and 1073741824 give "500 B", "1.00 KB", "1.00 MB" and "1.00 GB". -/
theorem formatSize_units_and_rounding (n : Int) :
    (n < 1024 → formatSize n = toString n ++ " B") ∧
    (1024 ≤ n → n < 1024 ^ 2 →
      ∃ h : Nat, formatSize n = twoDecimals h ++ " KB" ∧
        |100 * n - 1024 * (h : Int)| * 2 ≤ 1024 ∧
        (|100 * n - 1024 * (h : Int)| * 2 = 1024 → h % 2 = 0)) ∧
    (1024 ^ 2 ≤ n → n < 1024 ^ 3 →
      ∃ h : Nat, formatSize n = twoDecimals h ++ " MB" ∧
        |100 * n - 1024 ^ 2 * (h : Int)| * 2 ≤ 1024 ^ 2 ∧
        (|100 * n - 1024 ^ 2 * (h : Int)| * 2 = 1024 ^ 2 → h % 2 = 0)) ∧
    (1024 ^ 3 ≤ n → n ≤ 2 ^ 53 →
      ∃ h : Nat, formatSize n = twoDecimals h ++ " GB" ∧
        |100 * n - 1024 ^ 3 * (h : Int)| * 2 ≤ 1024 ^ 3 ∧
        (|100 * n - 1024 ^ 3 * (h : Int)| * 2 = 1024 ^ 3 → h % 2 = 0)) ∧
    (2 ^ 53 < n →
      ∃ h : Nat, formatSize n = twoDecimals h ++ " GB" ∧
        |100 * (float64OfNat n.toNat : Int) - 1024 ^ 3 * (h : Int)| * 2 ≤ 1024 ^ 3 ∧
        (|100 * (float64OfNat n.toNat : Int) - 1024 ^ 3 * (h : Int)| * 2 = 1024 ^ 3 →
          h % 2 = 0)) ∧
    formatSize 500 = "500 B" ∧ formatSize 1024 = "1.00 KB" ∧
    formatSize 1048576 = "1.00 MB" ∧ formatSize 1073741824 = "1.00 GB" := by
  refine ⟨formatSize_bytes n, ?_, ?_, ?_, ?_, by decide, by decide, by decide, by decide⟩
  · intro h1 h2
    have hfloat : float64OfNat n.toNat = n.toNat := float64OfNat_of_le _ (by omega)
    obtain ⟨h, hs, hnear, htie⟩ := sprintf2f_nearest n.toNat 1024 (by norm_num)
    have hcast : ((n.toNat : Nat) : Int) = n := Int.toNat_of_nonneg (by omega)
    rw [hcast] at hnear htie
    refine ⟨h, ?_, ?_, ?_⟩
    · rw [formatSize_KB n h1 (by omega), hfloat, hs]
    · exact_mod_cast hnear
    · intro ht
      exact htie (by exact_mod_cast ht)
  · intro h1 h2
    have hfloat : float64OfNat n.toNat = n.toNat := float64OfNat_of_le _ (by omega)
    obtain ⟨h, hs, hnear, htie⟩ := sprintf2f_nearest n.toNat (1024 * 1024) (by norm_num)
    have hcast : ((n.toNat : Nat) : Int) = n := Int.toNat_of_nonneg (by omega)
    rw [hcast] at hnear htie
    refine ⟨h, ?_, ?_, ?_⟩
    · rw [formatSize_MB n (by omega) (by omega), hfloat, hs]
    · norm_num at hnear ⊢
      exact hnear
    · intro ht
      apply htie
      norm_num at ht ⊢
      exact ht
  · intro h1 h2
    have hfloat : float64OfNat n.toNat = n.toNat := float64OfNat_of_le _ (by omega)
    obtain ⟨h, hs, hnear, htie⟩ :=
      sprintf2f_nearest n.toNat (1024 * 1024 * 1024) (by norm_num)
    have hcast : ((n.toNat : Nat) : Int) = n := Int.toNat_of_nonneg (by omega)
    rw [hcast] at hnear htie
    refine ⟨h, ?_, ?_, ?_⟩
    · rw [formatSize_GB n (by omega), hfloat, hs]
    · norm_num at hnear ⊢
      exact hnear
    · intro ht
      apply htie
      norm_num at ht ⊢
      exact ht
  · intro h1
    obtain ⟨h, hs, hnear, htie⟩ :=
      sprintf2f_nearest (float64OfNat n.toNat) (1024 * 1024 * 1024) (by norm_num)
    refine ⟨h, ?_, ?_, ?_⟩
    · rw [formatSize_GB n (by omega), hs]
    · norm_num at hnear ⊢
      exact hnear
    · intro ht
      apply htie
      norm_num at ht ⊢
      exact ht

theorem formatSize_units_and_rounding_witness :
    (∃ h : Nat, formatSize 104857600 = twoDecimals h ++ " MB" ∧
      |100 * (104857600 : Int) - 1024 ^ 2 * (h : Int)| * 2 ≤ 1024 ^ 2 ∧
      (|100 * (104857600 : Int) - 1024 ^ 2 * (h : Int)| * 2 = 1024 ^ 2 → h % 2 = 0)) ∧
    (∃ h : Nat, formatSize 1152 = twoDecimals h ++ " KB" ∧
      |100 * (1152 : Int) - 1024 * (h : Int)| * 2 ≤ 1024 ∧
      (|100 * (1152 : Int) - 1024 * (h : Int)| * 2 = 1024 → h % 2 = 0)) ∧
    formatSize 1152 = "1.12 KB" :=
  ⟨(formatSize_units_and_rounding 104857600).2.2.1 (by decide) (by decide),
   (formatSize_units_and_rounding 1152).2.1 (by decide) (by decide),
   by decide⟩

/-- C7, the claim as stated fails for a byte count above 2^53: for
`n = 2^62 + 16106127` the code prints "4294967296.02 GB", that is 429496729602
hundredths, although `n / 1024^3` lies less than half a hundredth from
429496729601 hundredths and more than half a hundredth from 429496729602. -/
theorem formatSize_counterexample :
    formatSize (2 ^ 62 + 16106127) = "4294967296.02 GB" ∧
    twoDecimals 429496729602 ++ " GB" = "4294967296.02 GB" ∧
    |100 * (2 ^ 62 + 16106127 : Int) - 1024 ^ 3 * 429496729601| * 2 < 1024 ^ 3 ∧
    1024 ^ 3 < |100 * (2 ^ 62 + 16106127 : Int) - 1024 ^ 3 * 429496729602| * 2 := by
  refine ⟨by decide, by decide, by norm_num, by norm_num⟩

/-! ## GetImageInfo -/

theorem length_le_toDigitsCore (fuel : Nat) :
    ∀ (n : Nat) (acc : List Char), acc.length ≤ (Nat.toDigitsCore 10 fuel n acc).length := by
  induction fuel with
  | zero => intro n acc; simp [Nat.toDigitsCore]
  | succ fuel ih =>
    intro n acc
    simp only [Nat.toDigitsCore]
    split_ifs
    · simp
    · exact Nat.le_trans (by simp) (ih (n / 10) (Nat.digitChar (n % 10) :: acc))

theorem eq_zero_of_toDigits_eq_zero (m : Nat) (h : Nat.toDigits 10 m = ['0']) : m = 0 := by
  simp only [Nat.toDigits, Nat.toDigitsCore] at h
  split_ifs at h with hdiv
  · have hlt : m < 10 := by omega
    have hmod : m % 10 = m := Nat.mod_eq_of_lt hlt
    rw [hmod] at h
    interval_cases m <;> simp_all [Nat.digitChar]
  · cases m with
    | zero => simp at hdiv
    | succ k =>
      simp only [Nat.toDigitsCore] at h
      split_ifs at h
      · simp at h
      · have hlen2 := length_le_toDigitsCore k ((k + 1) / 10 / 10)
          [Nat.digitChar ((k + 1) / 10 % 10), Nat.digitChar ((k + 1) % 10)]
        rw [h] at hlen2
        simp at hlen2

theorem eq_zero_of_toString_eq_zero (n : Int) (h : toString n = "0") : n = 0 := by
  cases n with
  | ofNat m =>
    have hm : Nat.toDigits 10 m = ['0'] := congrArg String.data h
    rw [eq_zero_of_toDigits_eq_zero m hm]
    rfl
  | negSucc m =>
    have hdata := congrArg String.data h
    have hneg : toString (Int.negSucc m) = "-" ++ toString (m + 1) := rfl
    rw [hneg] at hdata
    simp at hdata

theorem append_suffix_ne_zeroB (s : String) (unit : Char) :
    s ++ String.mk [' ', unit, 'B'] ≠ "0 B" := by
  intro h
  have hdata := congrArg (fun t => t.data.reverse) h
  simp at hdata

theorem formatSize_ne_zeroB (n : Int) (hn : n ≠ 0) : formatSize n ≠ "0 B" := by
  by_cases h1 : n < 1024
  · rw [formatSize_bytes n h1]
    intro h
    apply hn
    apply eq_zero_of_toString_eq_zero
    have hdata := congrArg String.data h
    have hcancel : (toString n).data = ['0'] := by
      have h0 : (toString n).data ++ [' ', 'B'] = ['0'] ++ [' ', 'B'] := by simpa using hdata
      exact List.append_cancel_right h0
    exact String.ext hcancel
  · by_cases h2 : n < 1024 * 1024
    · rw [formatSize_KB n (by omega) h2]
      exact append_suffix_ne_zeroB _ 'K'
    · by_cases h3 : n < 1024 * 1024 * 1024
      · rw [formatSize_MB n (by omega) h3]
        exact append_suffix_ne_zeroB _ 'M'
      · rw [formatSize_GB n (by omega)]
        exact append_suffix_ne_zeroB _ 'G'

/-- C9. Whenever `GetImageInfo` succeeds, the registry answered with a body
whose decoded `full_size` is not zero, the size string returned is
`formatSize` of that `full_size`, it is not "0 B", and the layer count is 0;
a body that does not decode (malformed JSON) or decodes to a zero size makes
`GetImageInfo` fail with the empty size string and the layer count 0. -/
theorem GetImageInfo_size_and_layers {σ β : Type} (s : HELMService)
    (httpGet : String → σ → Except String (HTTPResponse β) × σ)
    (unmarshal : β → Int × Option String) (imageName : String) (w : σ) :
    (∀ size layers w1,
      GetImageInfo s httpGet unmarshal imageName w = ((size, layers, none), w1) →
      ∃ body fullSize,
        GetDockerHubResponse s httpGet imageName w = (.ok body, w1) ∧
        unmarshal body = (fullSize, none) ∧ fullSize ≠ 0 ∧
        size = formatSize fullSize ∧ size ≠ "0 B" ∧ layers = 0) ∧
    (∀ body w1, GetDockerHubResponse s httpGet imageName w = (.ok body, w1) →
      ((unmarshal body).2 ≠ none ∨ (unmarshal body).1 = 0) →
      ∃ err, GetImageInfo s httpGet unmarshal imageName w = (("", 0, some err), w1)) := by
  constructor
  · intro size layers w1 hinfo
    rcases hresp : GetDockerHubResponse s httpGet imageName w with ⟨resp, w2⟩
    cases resp with
    | error e => simp [GetImageInfo, hresp] at hinfo
    | ok body =>
      rcases hcall : unmarshal body with ⟨fullSize, err⟩
      cases err with
      | some e => simp [GetImageInfo, hresp, GetImageSize, hcall] at hinfo
      | none =>
        by_cases hzero : fullSize = 0
        · simp [GetImageInfo, hresp, GetImageSize, hcall, hzero] at hinfo
        · simp only [GetImageInfo, hresp, GetImageSize, hcall, hzero, if_false,
            GetImageLayers, Prod.mk.injEq] at hinfo
          obtain ⟨⟨hsize, hlayers, _⟩, hw⟩ := hinfo
          subst hw
          refine ⟨body, fullSize, rfl, hcall, hzero, hsize.symm, ?_, hlayers.symm⟩
          rw [← hsize]
          exact formatSize_ne_zeroB fullSize hzero
  · intro body w1 hresp hbad
    rcases hcall : unmarshal body with ⟨fullSize, err⟩
    rw [hcall] at hbad
    cases err with
    | some e =>
      exact ⟨"failed to get image size: " ++ ("error parsing JSON: " ++ e),
        by simp [GetImageInfo, hresp, GetImageSize, hcall]⟩
    | none =>
      have hzero : fullSize = 0 := by simpa using hbad
      exact ⟨"failed to get image size: invalid response: full_size field is missing or zero",
        by simp [GetImageInfo, hresp, GetImageSize, hcall, hzero]⟩

theorem GetImageInfo_size_and_layers_witness :
    ∃ body fullSize,
      GetDockerHubResponse NewHELMService (registryStub 104857600) "nginx:latest" () =
        (.ok body, ()) ∧
      jsonUnmarshal body = (fullSize, none) ∧ fullSize ≠ 0 ∧
      "100.00 MB" = formatSize fullSize ∧ "100.00 MB" ≠ "0 B" ∧ (0 : Int) = 0 :=
  (GetImageInfo_size_and_layers NewHELMService (registryStub 104857600) jsonUnmarshal
    "nginx:latest" ()).1 "100.00 MB" 0 () (by decide)


/-! ## Repository and tag of an image name -/

theorem splitChars_of_not_mem (sep : Char) (l : List Char) (h : sep ∉ l) :
    splitChars sep l = [l] := by
  induction l with
  | nil => rfl
  | cons c cs ih =>
    have hc : c ≠ sep := fun hc => h (by simp [hc])
    have hcs : sep ∉ cs := fun hmem => h (List.mem_cons_of_mem _ hmem)
    simp [splitChars, hc, ih hcs]

theorem splitChars_append_sep (sep : Char) (a rest : List Char) (h : sep ∉ a) :
    splitChars sep (a ++ sep :: rest) = a :: splitChars sep rest := by
  induction a with
  | nil => simp [splitChars]
  | cons c cs ih =>
    have hc : c ≠ sep := fun hc => h (by simp [hc])
    have hcs : sep ∉ cs := fun hmem => h (List.mem_cons_of_mem _ hmem)
    simp [splitChars, hc, ih hcs]

theorem repositoryAndTag_of_no_colon (name : String) (h : ':' ∉ name.toList) :
    repositoryAndTag name = (name, "latest") := by
  simp only [repositoryAndTag, stringsSplit]
  rw [splitChars_of_not_mem ':' name.toList h]
  simp [String.toList]

theorem repositoryAndTag_of_one_colon (a b : String) (ha : ':' ∉ a.toList)
    (hb : ':' ∉ b.toList) : repositoryAndTag (a ++ ":" ++ b) = (a, b) := by
  have hsplit : splitChars ':' (a ++ ":" ++ b).toList = [a.toList, b.toList] := by
    have hlist : (a ++ ":" ++ b).toList = a.toList ++ ':' :: b.toList := by
      simp [String.toList]
    rw [hlist, splitChars_append_sep ':' a.toList b.toList ha,
      splitChars_of_not_mem ':' b.toList hb]
  simp only [repositoryAndTag, stringsSplit]
  rw [hsplit]
  simp [String.toList]

theorem repositoryAndTag_of_more_colons (a b c : String) (ha : ':' ∉ a.toList)
    (hb : ':' ∉ b.toList) : repositoryAndTag (a ++ ":" ++ b ++ ":" ++ c) = (a, b) := by
  have hsplit : splitChars ':' (a ++ ":" ++ b ++ ":" ++ c).toList =
      a.toList :: b.toList :: splitChars ':' c.toList := by
    have hlist : (a ++ ":" ++ b ++ ":" ++ c).toList =
        a.toList ++ ':' :: (b.toList ++ ':' :: c.toList) := by
      simp [String.toList]
    rw [hlist, splitChars_append_sep ':' a.toList _ ha,
      splitChars_append_sep ':' b.toList _ hb]
  simp only [repositoryAndTag, stringsSplit]
  rw [hsplit]
  simp [String.toList]


/-! ## The registry lookup path -/

theorem GetDockerHubResponse_log {σ β : Type} (s : HELMService)
    (httpGet : String → σ → Except String (HTTPResponse β) × σ) (imageName : String) (w : σ) :
    (GetDockerHubResponse s (logRequests httpGet) imageName (w, [])).2.2 =
        [dockerHubURL s (repositoryAndTag imageName).1 (repositoryAndTag imageName).2] ∧
    (GetDockerHubResponse s (logRequests httpGet) imageName (w, [])).1 =
        (GetDockerHubResponse s httpGet imageName w).1 := by
  rcases hget : httpGet
      (dockerHubURL s (repositoryAndTag imageName).1 (repositoryAndTag imageName).2) w
    with ⟨resp, w1⟩
  cases resp with
  | error e => simp [GetDockerHubResponse, logRequests, hget]
  | ok r =>
    by_cases hstatus : r.StatusCode = 200
    · cases hbody : r.Body <;> simp [GetDockerHubResponse, logRequests, hget, hstatus, hbody]
    · simp [GetDockerHubResponse, logRequests, hget, hstatus]

theorem officialURL_ne_namespacedURL (base repository tag : String) :
    base ++ "/v2/repositories/library/" ++ repository ++ "/tags/" ++ tag ≠
      base ++ "/v2/repositories/" ++ repository ++ "/tags/" ++ tag := by
  intro h
  have hlen := congrArg String.length h
  simp only [String.length_append] at hlen
  have h1 : "/v2/repositories/library/".length = 25 := by decide
  have h2 : "/v2/repositories/".length = 17 := by decide
  omega

theorem dockerHubURL_of_slash (s : HELMService) (repository tag : String)
    (h : '/' ∈ repository.toList) :
    dockerHubURL s repository tag =
      s.dockerHubBaseURL ++ "/v2/repositories/" ++ repository ++ "/tags/" ++ tag := by
  have hc : stringsContains repository '/' = true := by
    simpa [stringsContains, String.toList] using h
  simp only [dockerHubURL, hc, Bool.not_true, Bool.false_eq_true, if_false]

theorem dockerHubURL_of_no_slash (s : HELMService) (repository tag : String)
    (h : '/' ∉ repository.toList) :
    dockerHubURL s repository tag =
      s.dockerHubBaseURL ++ "/v2/repositories/library/" ++ repository ++ "/tags/" ++ tag := by
  have hc : stringsContains repository '/' = false := by
    simpa [stringsContains, String.toList] using h
  simp only [dockerHubURL, hc, Bool.not_false, if_true]

/-- C11. Registry lookup path: for every base URL and every image name, with
(repository, tag) the pair derived from the name, `GetDockerHubResponse` makes
one request; its URL is BASE/v2/repositories/library/REPOSITORY/tags/TAG
exactly when the repository contains no "/" and
BASE/v2/repositories/REPOSITORY/tags/TAG exactly when it contains one. -/
theorem GetDockerHubResponse_lookup_path {σ β : Type} (s : HELMService)
    (httpGet : String → σ → Except String (HTTPResponse β) × σ) (imageName : String) (w : σ) :
    ((GetDockerHubResponse s (logRequests httpGet) imageName (w, [])).2.2 =
        [s.dockerHubBaseURL ++ "/v2/repositories/library/" ++
          (repositoryAndTag imageName).1 ++ "/tags/" ++ (repositoryAndTag imageName).2]
      ↔ '/' ∉ (repositoryAndTag imageName).1.toList) ∧
    ((GetDockerHubResponse s (logRequests httpGet) imageName (w, [])).2.2 =
        [s.dockerHubBaseURL ++ "/v2/repositories/" ++
          (repositoryAndTag imageName).1 ++ "/tags/" ++ (repositoryAndTag imageName).2]
      ↔ '/' ∈ (repositoryAndTag imageName).1.toList) ∧
    (GetDockerHubResponse s (logRequests httpGet) imageName (w, [])).1 =
        (GetDockerHubResponse s httpGet imageName w).1 := by
  obtain ⟨hlog, hsame⟩ := GetDockerHubResponse_log s httpGet imageName w
  have hne := officialURL_ne_namespacedURL s.dockerHubBaseURL
    (repositoryAndTag imageName).1 (repositoryAndTag imageName).2
  refine ⟨?_, ?_, hsame⟩
  · rw [hlog]
    by_cases hslash : '/' ∈ (repositoryAndTag imageName).1.toList
    · rw [dockerHubURL_of_slash s _ _ hslash]
      constructor
      · intro h
        exact absurd (List.cons.inj h).1.symm hne
      · intro h
        exact absurd hslash h
    · rw [dockerHubURL_of_no_slash s _ _ hslash]
      exact ⟨fun _ => hslash, fun _ => rfl⟩
  · rw [hlog]
    by_cases hslash : '/' ∈ (repositoryAndTag imageName).1.toList
    · rw [dockerHubURL_of_slash s _ _ hslash]
      exact ⟨fun _ => hslash, fun _ => rfl⟩
    · rw [dockerHubURL_of_no_slash s _ _ hslash]
      constructor
      · intro h
        exact absurd (List.cons.inj h).1 hne
      · intro h
        exact absurd h hslash

theorem GetDockerHubResponse_lookup_path_witness :
    (GetDockerHubResponse NewHELMService (logRequests (registryStub 104857600))
        "nginx:latest" ((), [])).2.2 =
      ["https://hub.docker.com/v2/repositories/library/nginx/tags/latest"] ∧
    (GetDockerHubResponse NewHELMService (logRequests (registryStub 52428800))
        "custom/nginx:latest" ((), [])).2.2 =
      ["https://hub.docker.com/v2/repositories/custom/nginx/tags/latest"] :=
  ⟨(GetDockerHubResponse_lookup_path NewHELMService (registryStub 104857600)
      "nginx:latest" ()).1.mpr (by decide),
   (GetDockerHubResponse_lookup_path NewHELMService (registryStub 52428800)
      "custom/nginx:latest" ()).2.1.mpr (by decide)⟩


/-! ## Records and the nodes they come from -/

theorem length_helmChartImage (v : List (String × Node)) :
    (helmChartImage v).length = if hasStructuredImage (.mapping v) = true then 1 else 0 := by
  cases h : v.lookup "image" with
  | none => simp [helmChartImage, hasStructuredImage, h]
  | some n =>
    cases n with
    | mapping imageMap =>
      cases hr : imageMap.lookup "repository" with
      | none => simp [helmChartImage, hasStructuredImage, h, hr, asString]
      | some m =>
        cases m with
        | str r =>
          by_cases hne : r = "" <;>
            simp [helmChartImage, hasStructuredImage, h, hr, asString, hne]
        | _ => simp [helmChartImage, hasStructuredImage, h, hr, asString]
    | _ => simp [helmChartImage, hasStructuredImage, h]

theorem length_directImage (v : List (String × Node)) :
    (directImage v).length = if hasStringImage (.mapping v) = true then 1 else 0 := by
  cases h : v.lookup "image" with
  | none => simp [directImage, hasStringImage, h]
  | some n => cases n <;> simp [directImage, hasStringImage, h]

theorem not_string_and_structured (n : Node) :
    ¬ (hasStringImage n = true ∧ hasStructuredImage n = true) := by
  cases n with
  | mapping v =>
    cases h : v.lookup "image" with
    | none => simp [hasStringImage, h]
    | some m => cases m <;> simp [hasStringImage, hasStructuredImage, h]
  | _ => simp [hasStringImage]

mutual
theorem length_FindContainerImages :
    (root : Node) →
      (FindContainerImages root).length =
        (subnodes root).countP hasStringImage + (subnodes root).countP hasStructuredImage
  | .mapping v => by
    have hrest := length_rangeValues v
    rw [FindContainerImages_mapping]
    simp only [List.length_append, length_helmChartImage, length_directImage, hrest, subnodes,
      List.countP_cons]
    omega
  | .sequence v => by
    have hrest := length_rangeItems v
    rw [FindContainerImages_sequence, hrest]
    simp [subnodes, List.countP_cons, hasStringImage, hasStructuredImage]
  | .str _ => by simp [FindContainerImages, subnodes, hasStringImage, hasStructuredImage]
  | .int _ => by simp [FindContainerImages, subnodes, hasStringImage, hasStructuredImage]
  | .float _ => by simp [FindContainerImages, subnodes, hasStringImage, hasStructuredImage]
  | .bool _ => by simp [FindContainerImages, subnodes, hasStringImage, hasStructuredImage]
  | .null => by simp [FindContainerImages, subnodes, hasStringImage, hasStructuredImage]
  | .other _ => by simp [FindContainerImages, subnodes, hasStringImage, hasStructuredImage]
theorem length_rangeValues :
    (v : List (String × Node)) →
      (rangeValues v).length =
        (subnodesOfValues v).countP hasStringImage +
          (subnodesOfValues v).countP hasStructuredImage
  | [] => by simp [rangeValues, subnodesOfValues]
  | (_, value) :: rest => by
    have h1 := length_FindContainerImages value
    have h2 := length_rangeValues rest
    simp only [rangeValues, subnodesOfValues, List.length_append, List.countP_append, h1, h2]
    omega
theorem length_rangeItems :
    (v : List Node) →
      (rangeItems v).length =
        (subnodesOfItems v).countP hasStringImage +
          (subnodesOfItems v).countP hasStructuredImage
  | [] => by simp [rangeItems, subnodesOfItems]
  | item :: rest => by
    have h1 := length_FindContainerImages item
    have h2 := length_rangeItems rest
    simp only [rangeItems, subnodesOfItems, List.length_append, List.countP_append, h1, h2]
    omega
end

theorem rangeItems_replicate (k : Nat) (s : String) :
    rangeItems (List.replicate k (.mapping [("image", .str s)])) =
      List.replicate k { Name := s } := by
  induction k with
  | zero => rfl
  | succ k ih =>
    have hone : FindContainerImages (.mapping [("image", .str s)]) = [{ Name := s }] := by
      simp [FindContainerImages, helmChartImage, directImage, rangeValues, List.lookup]
    simp [List.replicate_succ, rangeItems, ih, hone]

/-- C13. The structured and the string shape exclude each other on a node and
nothing is deduplicated: the number of records returned by
`FindContainerImages` is the number of mapping nodes of the tree whose "image"
value is a string plus the number of those whose "image" value is a mapping
with a non-empty string "repository"; no node has both shapes, a node with one
of them contributes exactly one record of its own, and a sequence holding the
same image `k` times yields `k` records. -/
theorem FindContainerImages_one_record_per_image_node (root : Node) :
    (FindContainerImages root).length =
        (subnodes root).countP hasStringImage + (subnodes root).countP hasStructuredImage ∧
    (∀ n : Node, ¬ (hasStringImage n = true ∧ hasStructuredImage n = true)) ∧
    (∀ v : List (String × Node),
      (helmChartImage v ++ directImage v).length =
        if hasStringImage (.mapping v) = true ∨ hasStructuredImage (.mapping v) = true
        then 1 else 0) ∧
    (∀ (k : Nat) (s : String),
      FindContainerImages (.sequence (List.replicate k (.mapping [("image", .str s)]))) =
        List.replicate k { Name := s, Container := "", Size := "", Layers := 0 }) := by
  refine ⟨length_FindContainerImages root, not_string_and_structured, ?_, ?_⟩
  · intro v
    have hnot := not_string_and_structured (.mapping v)
    rw [List.length_append, length_helmChartImage, length_directImage]
    by_cases h1 : hasStringImage (.mapping v) = true <;>
      by_cases h2 : hasStructuredImage (.mapping v) = true <;> simp_all
  · intro k s
    rw [FindContainerImages_sequence, rangeItems_replicate]


/-! ## The fields of the records returned by the scanner -/

theorem append_colon_ne_empty (r t : String) : r ++ ":" ++ t ≠ "" := by
  intro h
  have hdata := congrArg String.data h
  simp at hdata

theorem helmChartImage_fields (v : List (String × Node)) :
    ∀ img ∈ helmChartImage v, img.Size = "" ∧ img.Layers = 0 ∧ img.Name ≠ "" := by
  intro img himg
  unfold helmChartImage at himg
  split at himg
  · simp only at himg
    split_ifs at himg with hrepo
    · simp only [List.mem_singleton] at himg
      subst himg
      exact ⟨rfl, rfl, append_colon_ne_empty _ _⟩
    · simp only [List.mem_singleton] at himg
      subst himg
      exact ⟨rfl, rfl, append_colon_ne_empty _ _⟩
    · simp at himg
  · simp at himg

theorem directImage_fields (v : List (String × Node)) :
    ∀ img ∈ directImage v, img.Size = "" ∧ img.Layers = 0 ∧
      (img.Name = "" → v.lookup "image" = some (.str "")) := by
  intro img himg
  unfold directImage at himg
  split at himg
  · rename_i image himage
    simp only [List.mem_singleton] at himg
    subst himg
    refine ⟨rfl, rfl, ?_⟩
    intro hname
    simp only at hname
    rw [himage, hname]
  · simp at himg

mutual
theorem FindContainerImages_fields :
    (root : Node) → ∀ img ∈ FindContainerImages root,
      img.Size = "" ∧ img.Layers = 0 ∧
        (img.Name = "" → ∃ entries, Node.mapping entries ∈ subnodes root ∧
          entries.lookup "image" = some (.str ""))
  | .mapping v => by
    intro img himg
    rw [FindContainerImages_mapping] at himg
    simp only [List.mem_append] at himg
    rcases himg with (himg | himg) | himg
    · obtain ⟨h1, h2, h3⟩ := helmChartImage_fields v img himg
      exact ⟨h1, h2, fun h => absurd h h3⟩
    · obtain ⟨h1, h2, h3⟩ := directImage_fields v img himg
      exact ⟨h1, h2, fun h => ⟨v, by simp [subnodes], h3 h⟩⟩
    · obtain ⟨h1, h2, h3⟩ := rangeValues_fields v img himg
      refine ⟨h1, h2, fun h => ?_⟩
      obtain ⟨entries, hmem, hlook⟩ := h3 h
      exact ⟨entries, by simp [subnodes, hmem], hlook⟩
  | .sequence v => by
    intro img himg
    rw [FindContainerImages_sequence] at himg
    obtain ⟨h1, h2, h3⟩ := rangeItems_fields v img himg
    refine ⟨h1, h2, fun h => ?_⟩
    obtain ⟨entries, hmem, hlook⟩ := h3 h
    exact ⟨entries, by simp [subnodes, hmem], hlook⟩
  | .str _ => by simp [FindContainerImages]
  | .int _ => by simp [FindContainerImages]
  | .float _ => by simp [FindContainerImages]
  | .bool _ => by simp [FindContainerImages]
  | .null => by simp [FindContainerImages]
  | .other _ => by simp [FindContainerImages]
theorem rangeValues_fields :
    (v : List (String × Node)) → ∀ img ∈ rangeValues v,
      img.Size = "" ∧ img.Layers = 0 ∧
        (img.Name = "" → ∃ entries, Node.mapping entries ∈ subnodesOfValues v ∧
          entries.lookup "image" = some (.str ""))
  | [] => by simp [rangeValues]
  | (_, value) :: rest => by
    intro img himg
    simp only [rangeValues, List.mem_append] at himg
    rcases himg with himg | himg
    · obtain ⟨h1, h2, h3⟩ := FindContainerImages_fields value img himg
      refine ⟨h1, h2, fun h => ?_⟩
      obtain ⟨entries, hmem, hlook⟩ := h3 h
      exact ⟨entries, by simp [subnodesOfValues, hmem], hlook⟩
    · obtain ⟨h1, h2, h3⟩ := rangeValues_fields rest img himg
      refine ⟨h1, h2, fun h => ?_⟩
      obtain ⟨entries, hmem, hlook⟩ := h3 h
      exact ⟨entries, by simp [subnodesOfValues, hmem], hlook⟩
theorem rangeItems_fields :
    (v : List Node) → ∀ img ∈ rangeItems v,
      img.Size = "" ∧ img.Layers = 0 ∧
        (img.Name = "" → ∃ entries, Node.mapping entries ∈ subnodesOfItems v ∧
          entries.lookup "image" = some (.str ""))
  | [] => by simp [rangeItems]
  | item :: rest => by
    intro img himg
    simp only [rangeItems, List.mem_append] at himg
    rcases himg with himg | himg
    · obtain ⟨h1, h2, h3⟩ := FindContainerImages_fields item img himg
      refine ⟨h1, h2, fun h => ?_⟩
      obtain ⟨entries, hmem, hlook⟩ := h3 h
      exact ⟨entries, by simp [subnodesOfItems, hmem], hlook⟩
    · obtain ⟨h1, h2, h3⟩ := rangeItems_fields rest img himg
      refine ⟨h1, h2, fun h => ?_⟩
      obtain ⟨entries, hmem, hlook⟩ := h3 h
      exact ⟨entries, by simp [subnodesOfItems, hmem], hlook⟩
end

/-- C12 (code evaluated at the failing input). For the document
`image: ""`, a mapping whose "image" value is the empty string, the scanner
returns one record and its `Name` is empty: the string branch appends the
record without the test for an empty name that the structured branch makes
on the repository. -/
theorem FindContainerImages_empty_image_name :
    FindContainerImages (.mapping [("image", .str "")]) =
        [{ Name := "", Container := "", Size := "", Layers := 0 }] ∧
    FindContainerImages (.mapping [("image", .mapping [("repository", .str "")])]) = [] := by
  decide


/-! ## Independence of the iteration order -/

theorem self_mem_subnodes (n : Node) : n ∈ subnodes n := by
  cases n <;> simp [subnodes]

theorem subnodes_subset_of_mem_values (v : List (String × Node)) (key : String) (n m : Node)
    (hmem : (key, n) ∈ v) (hm : m ∈ subnodes n) : m ∈ subnodesOfValues v := by
  induction v with
  | nil => simp at hmem
  | cons kv rest ih =>
    obtain ⟨k, value⟩ := kv
    simp only [subnodesOfValues, List.mem_append]
    rcases List.mem_cons.mp hmem with heq | hrest
    · left
      have hv : n = value := (Prod.mk.inj heq).2
      rw [← hv]
      exact hm
    · right
      exact ih hrest

theorem mem_of_lookup (v : List (String × Node)) (key : String) (n : Node)
    (h : v.lookup key = some n) : (key, n) ∈ v := by
  induction v with
  | nil => simp [List.lookup] at h
  | cons kv rest ih =>
    obtain ⟨k, value⟩ := kv
    rw [List.lookup_cons] at h
    by_cases hk : (key == k) = true
    · rw [hk] at h
      have hv : value = n := by simpa using h
      have hkey : key = k := by simpa using hk
      subst hv hkey
      exact List.mem_cons_self _ _
    · have hk2 : (key == k) = false := by simpa using hk
      rw [hk2] at h
      exact List.mem_cons_of_mem _ (ih h)

theorem lookup_eq_of_perm (key : String) {v1 v2 : List (String × Node)} (hperm : v1.Perm v2)
    (hnodup : (v1.map Prod.fst).Nodup) : v1.lookup key = v2.lookup key := by
  induction hperm with
  | nil => rfl
  | cons x _ ih =>
    obtain ⟨k, value⟩ := x
    simp only [List.map_cons, List.nodup_cons] at hnodup
    simp only [List.lookup_cons]
    rw [ih hnodup.2]
  | swap x y l =>
    obtain ⟨k1, value1⟩ := x
    obtain ⟨k2, value2⟩ := y
    simp only [List.map_cons, List.nodup_cons, List.mem_cons, not_or] at hnodup
    have hne : k2 ≠ k1 := hnodup.1.1
    simp only [List.lookup_cons]
    by_cases h1 : key = k1
    · subst h1
      have h2 : (key == k2) = false := by simpa using fun h => hne h.symm
      simp [h2]
    · have h1' : (key == k1) = false := by simpa using h1
      simp [h1']
  | trans h12 _ ih1 ih2 =>
    exact (ih1 hnodup).trans (ih2 ((h12.map Prod.fst).nodup_iff.mp hnodup))


theorem keys_of_reorderedValues :
    (v v1 : List (String × Node)) → ReorderedValues v v1 → v1.map Prod.fst = v.map Prod.fst
  | [], _, h => by cases h; rfl
  | (_, _) :: rest, _, h => by
    cases h with
    | cons _ hrest => simp [keys_of_reorderedValues rest _ hrest]

theorem lookup_of_reorderedValues (key : String) :
    (v v1 : List (String × Node)) → ReorderedValues v v1 →
      (v.lookup key = none → v1.lookup key = none) ∧
        (∀ n, v.lookup key = some n → ∃ n1, v1.lookup key = some n1 ∧ Reordered n n1)
  | [], _, h => by cases h; simp
  | (k, value) :: rest, _, h => by
    cases h with
    | cons hvalue hrest =>
      have ih := lookup_of_reorderedValues key rest _ hrest
      simp only [List.lookup_cons]
      by_cases hk : (key == k) = true
      · simp only [hk]
        refine ⟨fun h => by simp at h, fun n hn => ?_⟩
        have hv : value = n := by simpa using hn
        subst hv
        exact ⟨_, rfl, hvalue⟩
      · have hk2 : (key == k) = false := by simpa using hk
        simp only [hk2]
        exact ih

theorem lookup_of_reordered (key : String) (v v2 : List (String × Node))
    (hnodup : (v.map Prod.fst).Nodup) (hre : Reordered (.mapping v) (.mapping v2)) :
    (v.lookup key = none → v2.lookup key = none) ∧
      (∀ n, v.lookup key = some n → ∃ n2, v2.lookup key = some n2 ∧ Reordered n n2) := by
  cases hre with
  | same => exact ⟨fun h => h, fun n hn => ⟨n, hn, Reordered.same n⟩⟩
  | mapping hvalues hperm =>
    rename_i v1
    have hkeys := keys_of_reorderedValues v v1 hvalues
    have hlook : v1.lookup key = v2.lookup key :=
      lookup_eq_of_perm key hperm (by rw [hkeys]; exact hnodup)
    rw [← hlook]
    exact lookup_of_reorderedValues key v v1 hvalues

theorem asString_some_of_reordered (n n2 : Node) (hre : Reordered n n2) :
    asString (some n) = asString (some n2) := by
  cases hre <;> rfl

theorem asString_lookup_of_reordered (key : String) (v v2 : List (String × Node))
    (hnodup : (v.map Prod.fst).Nodup) (hre : Reordered (.mapping v) (.mapping v2)) :
    asString (v.lookup key) = asString (v2.lookup key) := by
  obtain ⟨hnone, hsome⟩ := lookup_of_reordered key v v2 hnodup hre
  cases hl : v.lookup key with
  | none => rw [hnone hl]
  | some n =>
    obtain ⟨n2, hl2, hre2⟩ := hsome n hl
    rw [hl2]
    exact asString_some_of_reordered n n2 hre2

theorem helmChartImage_of_reordered (v v2 : List (String × Node))
    (hkeys : uniqueKeys (.mapping v)) (hre : Reordered (.mapping v) (.mapping v2)) :
    helmChartImage v = helmChartImage v2 := by
  have hnodup : (v.map Prod.fst).Nodup := hkeys v (self_mem_subnodes _)
  obtain ⟨hnone, hsome⟩ := lookup_of_reordered "image" v v2 hnodup hre
  cases hl : v.lookup "image" with
  | none => simp [helmChartImage, hl, hnone hl]
  | some n =>
    obtain ⟨n2, hl2, hre2⟩ := hsome n hl
    cases hre2 with
    | same => simp only [helmChartImage, hl, hl2]
    | sequence _ => simp only [helmChartImage, hl, hl2]
    | mapping hvalues hperm =>
      rename_i im im1 im2
      have hmem : Node.mapping im ∈ subnodes (.mapping v) := by
        simp only [subnodes, List.mem_cons]
        right
        exact subnodes_subset_of_mem_values v "image" _ _ (mem_of_lookup v "image" _ hl)
          (self_mem_subnodes _)
      have himkeys : (im.map Prod.fst).Nodup := hkeys im hmem
      have hrepo := asString_lookup_of_reordered "repository" im im2 himkeys
        (Reordered.mapping hvalues hperm)
      have htag := asString_lookup_of_reordered "tag" im im2 himkeys
        (Reordered.mapping hvalues hperm)
      simp only [helmChartImage, hl, hl2, hrepo, htag]

theorem directImage_eq_asString (v : List (String × Node)) :
    directImage v =
      match v.lookup "image" with
      | some (.str image) => [{ Name := image, Container := asString (v.lookup "name") }]
      | _ => [] := by
  unfold directImage
  cases hl : v.lookup "image" with
  | none => rfl
  | some n =>
    cases n with
    | str s =>
      cases hn : v.lookup "name" with
      | none => rfl
      | some m => cases m <;> rfl
    | _ => rfl

theorem directImage_of_reordered (v v2 : List (String × Node))
    (hkeys : uniqueKeys (.mapping v)) (hre : Reordered (.mapping v) (.mapping v2)) :
    directImage v = directImage v2 := by
  have hnodup : (v.map Prod.fst).Nodup := hkeys v (self_mem_subnodes _)
  obtain ⟨hnone, hsome⟩ := lookup_of_reordered "image" v v2 hnodup hre
  have hname := asString_lookup_of_reordered "name" v v2 hnodup hre
  rw [directImage_eq_asString v, directImage_eq_asString v2]
  cases hl : v.lookup "image" with
  | none => simp [hnone hl]
  | some n =>
    obtain ⟨n2, hl2, hre2⟩ := hsome n hl
    cases hre2 with
    | same => simp only [hl2, hname]
    | sequence _ => simp only [hl2]
    | mapping _ _ => simp only [hl2]

theorem rangeValues_perm_of_perm {v1 v2 : List (String × Node)} (hperm : v1.Perm v2) :
    (rangeValues v1).Perm (rangeValues v2) := by
  induction hperm with
  | nil => exact List.Perm.refl _
  | cons x _ ih =>
    obtain ⟨k, value⟩ := x
    simp only [rangeValues]
    exact List.Perm.append_left _ ih
  | swap x y l =>
    obtain ⟨k1, value1⟩ := x
    obtain ⟨k2, value2⟩ := y
    simp only [rangeValues]
    rw [← List.append_assoc, ← List.append_assoc]
    exact List.Perm.append_right _ List.perm_append_comm
  | trans _ _ ih1 ih2 => exact ih1.trans ih2


mutual
theorem FindContainerImages_perm_of_reordered :
    (a b : Node) →
      (∀ entries, Node.mapping entries ∈ subnodes a → (entries.map Prod.fst).Nodup) →
      Reordered a b → (FindContainerImages a).Perm (FindContainerImages b)
  | .mapping v, _, hkeys, hre => by
    cases hre with
    | same => exact List.Perm.refl _
    | mapping hvalues hperm =>
      rename_i v1 v2
      have hchart := helmChartImage_of_reordered v v2 hkeys (Reordered.mapping hvalues hperm)
      have hdirect := directImage_of_reordered v v2 hkeys (Reordered.mapping hvalues hperm)
      have hvals := rangeValues_perm_of_reordered v v1
        (fun entries he => hkeys entries (by simp [subnodes, he])) hvalues
      rw [FindContainerImages_mapping, FindContainerImages_mapping, hchart, hdirect]
      exact List.Perm.append_left _ (hvals.trans (rangeValues_perm_of_perm hperm))
  | .sequence l, _, hkeys, hre => by
    cases hre with
    | same => exact List.Perm.refl _
    | sequence hitems =>
      rw [FindContainerImages_sequence, FindContainerImages_sequence]
      exact rangeItems_perm_of_reordered l _
        (fun entries he => hkeys entries (by simp [subnodes, he])) hitems
  | .str _, _, _, hre => by cases hre; exact List.Perm.refl _
  | .int _, _, _, hre => by cases hre; exact List.Perm.refl _
  | .float _, _, _, hre => by cases hre; exact List.Perm.refl _
  | .bool _, _, _, hre => by cases hre; exact List.Perm.refl _
  | .null, _, _, hre => by cases hre; exact List.Perm.refl _
  | .other _, _, _, hre => by cases hre; exact List.Perm.refl _
theorem rangeValues_perm_of_reordered :
    (v v1 : List (String × Node)) →
      (∀ entries, Node.mapping entries ∈ subnodesOfValues v → (entries.map Prod.fst).Nodup) →
      ReorderedValues v v1 → (rangeValues v).Perm (rangeValues v1)
  | [], _, _, h => by cases h; exact List.Perm.refl _
  | (_, value) :: rest, _, hkeys, h => by
    cases h with
    | cons hvalue hrest =>
      simp only [rangeValues]
      exact List.Perm.append
        (FindContainerImages_perm_of_reordered value _
          (fun entries he => hkeys entries (by simp [subnodesOfValues, he])) hvalue)
        (rangeValues_perm_of_reordered rest _
          (fun entries he => hkeys entries (by simp [subnodesOfValues, he])) hrest)
theorem rangeItems_perm_of_reordered :
    (l l2 : List Node) →
      (∀ entries, Node.mapping entries ∈ subnodesOfItems l → (entries.map Prod.fst).Nodup) →
      ReorderedItems l l2 → (rangeItems l).Perm (rangeItems l2)
  | [], _, _, h => by cases h; exact List.Perm.refl _
  | item :: rest, _, hkeys, h => by
    cases h with
    | cons hitem hrest =>
      simp only [rangeItems]
      exact List.Perm.append
        (FindContainerImages_perm_of_reordered item _
          (fun entries he => hkeys entries (by simp [subnodesOfItems, he])) hitem)
        (rangeItems_perm_of_reordered rest _
          (fun entries he => hkeys entries (by simp [subnodesOfItems, he])) hrest)
end

theorem holdsImage_of_ne_nil (n : Node) (h : FindContainerImages n ≠ []) :
    holdsImage n = true := by
  by_contra hnot
  have hfalse : holdsImage n = false := by simpa using hnot
  apply h
  apply List.eq_nil_of_length_eq_zero
  rw [length_FindContainerImages]
  simp only [holdsImage, List.any_eq_false, Bool.or_eq_true, not_or] at hfalse
  have h1 : (subnodes n).countP hasStringImage = 0 :=
    List.countP_eq_zero.mpr (fun m hm => (hfalse m hm).1)
  have h2 : (subnodes n).countP hasStructuredImage = 0 :=
    List.countP_eq_zero.mpr (fun m hm => (hfalse m hm).2)
  omega

theorem rangeValues_eq_of_perm {v1 v2 : List (String × Node)} (hperm : v1.Perm v2)
    (hone : v1.countP (fun kv => !(FindContainerImages kv.2).isEmpty) ≤ 1) :
    rangeValues v1 = rangeValues v2 := by
  induction hperm with
  | nil => rfl
  | cons x _ ih =>
    obtain ⟨k, value⟩ := x
    simp only [rangeValues]
    rw [ih (Nat.le_trans (by simp [List.countP_cons]) hone)]
  | swap x y l =>
    obtain ⟨k1, value1⟩ := x
    obtain ⟨k2, value2⟩ := y
    simp only [rangeValues]
    by_cases h1 : FindContainerImages value1 = []
    · simp [h1]
    · by_cases h2 : FindContainerImages value2 = []
      · simp [h2]
      · exfalso
        simp [List.countP_cons, h1, h2] at hone
  | trans h12 _ ih1 ih2 =>
    rw [ih1 hone, ih2 (by rw [← h12.countP_eq]; exact hone)]


mutual
theorem FindContainerImages_eq_of_reordered :
    (a b : Node) →
      (∀ entries, Node.mapping entries ∈ subnodes a → (entries.map Prod.fst).Nodup) →
      (∀ entries, Node.mapping entries ∈ subnodes a →
        entries.countP (fun kv => holdsImage kv.2) ≤ 1) →
      Reordered a b → FindContainerImages a = FindContainerImages b
  | .mapping v, _, hkeys, hone, hre => by
    cases hre with
    | same => rfl
    | mapping hvalues hperm =>
      rename_i v1 v2
      have hchart := helmChartImage_of_reordered v v2 hkeys (Reordered.mapping hvalues hperm)
      have hdirect := directImage_of_reordered v v2 hkeys (Reordered.mapping hvalues hperm)
      obtain ⟨hvals, hcount⟩ := rangeValues_eq_of_reordered v v1
        (fun entries he => hkeys entries (by simp [subnodes, he]))
        (fun entries he => hone entries (by simp [subnodes, he])) hvalues
      have hv : v.countP (fun kv => holdsImage kv.2) ≤ 1 := hone v (self_mem_subnodes _)
      have hle : v.countP (fun kv => !(FindContainerImages kv.2).isEmpty) ≤
          v.countP (fun kv => holdsImage kv.2) :=
        List.countP_mono_left (fun kv _ hkv =>
          holdsImage_of_ne_nil kv.2 (by simpa [List.isEmpty_iff] using hkv))
      have hv1 : v1.countP (fun kv => !(FindContainerImages kv.2).isEmpty) ≤ 1 := by omega
      rw [FindContainerImages_mapping, FindContainerImages_mapping, hchart, hdirect, hvals,
        rangeValues_eq_of_perm hperm hv1]
  | .sequence l, _, hkeys, hone, hre => by
    cases hre with
    | same => rfl
    | sequence hitems =>
      rw [FindContainerImages_sequence, FindContainerImages_sequence]
      exact rangeItems_eq_of_reordered l _
        (fun entries he => hkeys entries (by simp [subnodes, he]))
        (fun entries he => hone entries (by simp [subnodes, he])) hitems
  | .str _, _, _, _, hre => by cases hre; rfl
  | .int _, _, _, _, hre => by cases hre; rfl
  | .float _, _, _, _, hre => by cases hre; rfl
  | .bool _, _, _, _, hre => by cases hre; rfl
  | .null, _, _, _, hre => by cases hre; rfl
  | .other _, _, _, _, hre => by cases hre; rfl
theorem rangeValues_eq_of_reordered :
    (v v1 : List (String × Node)) →
      (∀ entries, Node.mapping entries ∈ subnodesOfValues v → (entries.map Prod.fst).Nodup) →
      (∀ entries, Node.mapping entries ∈ subnodesOfValues v →
        entries.countP (fun kv => holdsImage kv.2) ≤ 1) →
      ReorderedValues v v1 →
      rangeValues v = rangeValues v1 ∧
        v1.countP (fun kv => !(FindContainerImages kv.2).isEmpty) =
          v.countP (fun kv => !(FindContainerImages kv.2).isEmpty)
  | [], _, _, _, h => by cases h; exact ⟨rfl, rfl⟩
  | (_, value) :: rest, _, hkeys, hone, h => by
    cases h with
    | cons hvalue hrest =>
      have h1 := FindContainerImages_eq_of_reordered value _
        (fun entries he => hkeys entries (by simp [subnodesOfValues, he]))
        (fun entries he => hone entries (by simp [subnodesOfValues, he])) hvalue
      obtain ⟨h2, h3⟩ := rangeValues_eq_of_reordered rest _
        (fun entries he => hkeys entries (by simp [subnodesOfValues, he]))
        (fun entries he => hone entries (by simp [subnodesOfValues, he])) hrest
      refine ⟨by simp only [rangeValues, h1, h2], ?_⟩
      simp only [List.countP_cons, h3, h1]
theorem rangeItems_eq_of_reordered :
    (l l2 : List Node) →
      (∀ entries, Node.mapping entries ∈ subnodesOfItems l → (entries.map Prod.fst).Nodup) →
      (∀ entries, Node.mapping entries ∈ subnodesOfItems l →
        entries.countP (fun kv => holdsImage kv.2) ≤ 1) →
      ReorderedItems l l2 → rangeItems l = rangeItems l2
  | [], _, _, _, h => by cases h; rfl
  | item :: rest, _, hkeys, hone, h => by
    cases h with
    | cons hitem hrest =>
      have h1 := FindContainerImages_eq_of_reordered item _
        (fun entries he => hkeys entries (by simp [subnodesOfItems, he]))
        (fun entries he => hone entries (by simp [subnodesOfItems, he])) hitem
      have h2 := rangeItems_eq_of_reordered rest _
        (fun entries he => hkeys entries (by simp [subnodesOfItems, he]))
        (fun entries he => hone entries (by simp [subnodesOfItems, he])) hrest
      simp only [rangeItems, h1, h2]
end

/-- C14. Only the order of the scan result depends on the order in which the
keys of a mapping are iterated: for every document tree `a` whose mappings
have pairwise different keys, as Go maps have, and every tree `b` that is `a`
with the entries of its mappings visited in another order, the two lists
returned by `FindContainerImages` are permutations of each other; when every
mapping of `a` has at most one key whose subtree holds an image reference, the
two lists are equal. -/
theorem FindContainerImages_iteration_order (a b : Node) (hkeys : uniqueKeys a)
    (hre : Reordered a b) :
    (FindContainerImages a).Perm (FindContainerImages b) ∧
      (atMostOneImageKey a → FindContainerImages a = FindContainerImages b) :=
  ⟨FindContainerImages_perm_of_reordered a b hkeys hre,
   fun hone => FindContainerImages_eq_of_reordered a b hkeys hone hre⟩


theorem FindContainerImages_iteration_order_witness :
    (FindContainerImages twoImages.1).Perm (FindContainerImages twoImages.2) ∧
      FindContainerImages twoImages.1 ≠ FindContainerImages twoImages.2 ∧
      FindContainerImages oneImage.1 = FindContainerImages oneImage.2 :=
  ⟨(FindContainerImages_iteration_order twoImages.1 twoImages.2
      (by
        intro entries he
        simp [twoImages, subnodes, subnodesOfValues] at he
        rcases he with h | h | h <;> subst h <;> decide)
      (Reordered.mapping
        (ReorderedValues.cons (Reordered.same _)
          (ReorderedValues.cons (Reordered.same _) ReorderedValues.nil))
        (List.Perm.swap _ _ _))).1,
   by decide,
   (FindContainerImages_iteration_order oneImage.1 oneImage.2
      (by
        intro entries he
        simp [oneImage, subnodes, subnodesOfValues] at he
        rcases he with h | h <;> subst h <;> decide)
      (Reordered.mapping
        (ReorderedValues.cons (Reordered.same _)
          (ReorderedValues.cons
            (Reordered.mapping
              (ReorderedValues.cons (Reordered.same _)
                (ReorderedValues.cons (Reordered.same _) ReorderedValues.nil))
              (List.Perm.swap _ _ _))
            ReorderedValues.nil))
        (List.Perm.swap _ _ _))).2
      (by
        intro entries he
        simp [oneImage, subnodes, subnodesOfValues] at he
        rcases he with h | h <;> subst h <;> decide)⟩


end HelmViewer
